import Mathlib

/-!
Verification of the script-compiler front end
(torch/csrc/jit/script/compiler.cpp).

The development shallowly embeds the data model and the operations of the
compiler: the static type language, sugared values, the environment (scope
stack), schema matching and two-pass overload resolution, tuple
indexing/slicing, if/else reconciliation with deferred type errors, the
is/is-not metaprogramming in emitIf, ternary lowering, return-statement
placement and list-literal checking.  Functions whose definitions live in
this translation unit are translated from the source; helpers that the
translation unit only calls (the type lattice, matchTypeVariables,
unifyTypes, unshapedType, SugaredValue::isNone, try_emit_call_to) are
modelled from the specification and carry a doc comment saying so.
-/

/-- Static types of the script language.  Mirrors the closed set of types the
compiler manipulates: Tensor (DynamicType) possibly with a known shape
(CompleteTensorType), the primitive types, Optional/List/Tuple/Future
constructors and type variables used by generic schemas. -/
inductive Ty where
  | dynamic
  | tensor (shape : List Nat)
  | int
  | float
  | bool
  | str
  | noneTy
  | number
  | generator
  | device
  | optional (t : Ty)
  | list (t : Ty)
  | tuple (ts : List Ty)
  | future (t : Ty)
  | tvar (id : Nat)

mutual

/-- Structural equality on types (the C++ side compares types with
operator==, which is structural on this closed set). -/
def Ty.beq : Ty → Ty → Bool
  | .dynamic, .dynamic => true
  | .tensor s, .tensor t => s == t
  | .int, .int => true
  | .float, .float => true
  | .bool, .bool => true
  | .str, .str => true
  | .noneTy, .noneTy => true
  | .number, .number => true
  | .generator, .generator => true
  | .device, .device => true
  | .optional t, .optional u => Ty.beq t u
  | .list t, .list u => Ty.beq t u
  | .tuple ts, .tuple us => Ty.beqList ts us
  | .future t, .future u => Ty.beq t u
  | .tvar i, .tvar j => i == j
  | _, _ => false

/-- Pointwise structural equality on lists of types. -/
def Ty.beqList : List Ty → List Ty → Bool
  | [], [] => true
  | t :: ts, u :: us => Ty.beq t u && Ty.beqList ts us
  | _, _ => false

end

instance : BEq Ty := ⟨Ty.beq⟩

mutual

theorem Ty.beq_refl : ∀ t : Ty, Ty.beq t t = true
  | .dynamic | .int | .float | .bool | .str | .noneTy | .number
  | .generator | .device => rfl
  | .tensor s => by simp [Ty.beq]
  | .optional t | .list t | .future t => by simp [Ty.beq, Ty.beq_refl t]
  | .tuple ts => by simp [Ty.beq, Ty.beqList_refl ts]
  | .tvar i => by simp [Ty.beq]

theorem Ty.beqList_refl : ∀ ts : List Ty, Ty.beqList ts ts = true
  | [] => rfl
  | t :: ts => by simp [Ty.beqList, Ty.beq_refl t, Ty.beqList_refl ts]

end

mutual

theorem Ty.eq_of_beq : ∀ {t u : Ty}, Ty.beq t u = true → t = u
  | .dynamic, .dynamic, _ => rfl
  | .tensor s, .tensor t, h => by simp [Ty.beq] at h; simp [h]
  | .int, .int, _ => rfl
  | .float, .float, _ => rfl
  | .bool, .bool, _ => rfl
  | .str, .str, _ => rfl
  | .noneTy, .noneTy, _ => rfl
  | .number, .number, _ => rfl
  | .generator, .generator, _ => rfl
  | .device, .device, _ => rfl
  | .optional t, .optional u, h => by simp [Ty.beq] at h; simp [Ty.eq_of_beq h]
  | .list t, .list u, h => by simp [Ty.beq] at h; simp [Ty.eq_of_beq h]
  | .tuple ts, .tuple us, h => by simp [Ty.beq] at h; simp [Ty.eqList_of_beq h]
  | .future t, .future u, h => by simp [Ty.beq] at h; simp [Ty.eq_of_beq h]
  | .tvar i, .tvar j, h => by simp [Ty.beq] at h; simp [h]

theorem Ty.eqList_of_beq : ∀ {ts us : List Ty}, Ty.beqList ts us = true → ts = us
  | [], [], _ => rfl
  | t :: ts, u :: us, h => by
      simp only [Ty.beqList, Bool.and_eq_true] at h
      simp [Ty.eq_of_beq h.1, Ty.eqList_of_beq h.2]

end

instance : DecidableEq Ty := fun t u =>
  if h : Ty.beq t u then .isTrue (Ty.eq_of_beq h)
  else .isFalse (fun he => h (he ▸ Ty.beq_refl t))

instance : LawfulBEq Ty where
  eq_of_beq := Ty.eq_of_beq
  rfl := Ty.beq_refl _

mutual

/-- Modelled from the spec: the shape-erased view of a type.  A tensor type
with known sizes erases to the plain Tensor (dynamic) type; the erasure is
applied inside the container constructors.  (unshapedType is declared
outside this translation unit.) -/
def unshapedType : Ty → Ty
  | .tensor _ => .dynamic
  | .optional t => .optional (unshapedType t)
  | .list t => .list (unshapedType t)
  | .tuple ts => .tuple (unshapedList ts)
  | .future t => .future (unshapedType t)
  | t => t

/-- Shape erasure mapped over a list of types. -/
def unshapedList : List Ty → List Ty
  | [] => []
  | t :: ts => unshapedType t :: unshapedList ts

end

mutual

/-- Modelled from the spec: the subtyping relation of the type system
(Type::isSubtypeOf is declared outside this translation unit).  A type is a
subtype of itself; a shaped tensor type is a subtype of the plain Tensor
type; int and float are subtypes of number; T is a subtype of Optional[T]
(with covariant Optional); tuples are covariant pointwise. -/
def Ty.isSubtypeOf : Ty → Ty → Bool
  | t, u =>
    if Ty.beq t u then true
    else
      match t, u with
      | .tensor _, .dynamic => true
      | .int, .number => true
      | .float, .number => true
      | .optional a, .optional b => Ty.isSubtypeOf a b
      | .noneTy, .optional _ => true
      | a, .optional b => Ty.isSubtypeOf a b
      | .tuple ts, .tuple us => Ty.subList ts us
      | _, _ => false

/-- Pointwise subtyping on lists of types (same length required). -/
def Ty.subList : List Ty → List Ty → Bool
  | [], [] => true
  | t :: ts, u :: us => Ty.isSubtypeOf t u && Ty.subList ts us
  | _, _ => false

end

/-- Modelled from the spec: unifyTypes as used by if/else reconciliation —
identical types unify (to themselves); there is no implicit widening. -/
def unifyTypes (t u : Ty) : Option Ty :=
  if t == u then some t else none

/-- Compilation errors raised by the front end.  The constructors mirror the
error taxonomy of the source: each corresponds to one throw site (or family
of throw sites) and carries the data the message interpolates. -/
inductive Err where
  | notIntConstant
  | tupleIndexOutOfRange (len index : Int)
  | reassignNotFirstClass (name : String)
  | reassignTypeMismatch (name : String) (oldTy newTy : Ty)
  | branchTypeMismatch (name : String) (trueTy falseTy : Ty)
  | deferredUsed (msg : Err)
  | undefinedValue (name : String)
  | expectedValueButFound (kind : String)
  | ifExprTypeMismatch (trueTy falseTy : Ty)
  | returnNotAtEnd
  | listElemTypeMismatch (expected found : Ty)
  deriving DecidableEq

/- ********************** tuple indexing and slicing ********************** -/

/-- Translation of to_ir::getTupleIndexVal.  The subscript value must be a
compile-time integer constant (toIValue succeeding with an Int is modelled
by the argument being some index); a negative index is adjusted by the
tuple length; unless out-of-bounds indices are allowed, an adjusted index
outside the tuple is an error. -/
def getTupleIndexVal (tuple_type : List Ty) (idx_val : Option Int)
    (allow_out_of_bounds : Bool) : Except Err Int :=
  match idx_val with
  | none => .error .notIntConstant
  | some index =>
    let tuple_len : Int := tuple_type.length
    let adj_index : Int := if index < 0 then tuple_len + index else index
    if !allow_out_of_bounds && (decide (adj_index ≥ tuple_len) || decide (adj_index < 0)) then
      .error (.tupleIndexOutOfRange tuple_len index)
    else
      .ok adj_index

/-- Translation of to_ir::emitTupleSlice.  Both bounds are resolved with
out-of-bounds allowed, a missing end bound defaults to the tuple length,
and both are clamped into [0, length]; the result is the (begin, end) pair
of the created TupleSlice node. -/
def emitTupleSlice (tuple_type : List Ty) (beg_val : Option Int)
    (end_val : Option (Option Int)) : Except Err (Int × Int) :=
  match getTupleIndexVal tuple_type beg_val true with
  | .error err => .error err
  | .ok beg =>
    let tuple_len : Int := tuple_type.length
    match (match end_val with
           | some ev => getTupleIndexVal tuple_type ev true
           | none => .ok tuple_len) with
    | .error err => .error err
    | .ok e =>
      let e := min (max 0 e) tuple_len
      let beg := min (max 0 beg) tuple_len
      .ok (beg, e)

/-- Adjustment of a (possibly negative) constant tuple index by the tuple
length, as performed inside getTupleIndexVal. -/
def adjustedTupleIndex (L i : Int) : Int :=
  if i < 0 then L + i else i

/-- C5: for a tuple of statically known length L, a single non-slice
subscript requires a compile-time integer constant index, a negative index
i is adjusted to L+i, and an adjusted index outside [0, L-1] fails with the
tuple-index-out-of-range error; a tuple slice adjusts the same way but then
clamps both its begin and end bounds into [0, L] and never raises an
out-of-range error (a missing end bound defaults to L). -/
theorem tuple_index_checks_slice_clamps (tuple_type : List Ty) (i b e : Int) :
    (getTupleIndexVal tuple_type none false = .error .notIntConstant) ∧
    (getTupleIndexVal tuple_type (some i) false =
      (let L : Int := tuple_type.length
       let adj : Int := adjustedTupleIndex L i
       if 0 ≤ adj ∧ adj < L then .ok adj
       else .error (.tupleIndexOutOfRange L i))) ∧
    (emitTupleSlice tuple_type (some b) (some (some e)) =
      (let L : Int := tuple_type.length
       .ok (min (max 0 (adjustedTupleIndex L b)) L,
            min (max 0 (adjustedTupleIndex L e)) L))) ∧
    (emitTupleSlice tuple_type (some b) none =
      (let L : Int := tuple_type.length
       .ok (min (max 0 (adjustedTupleIndex L b)) L, L))) ∧
    (∀ bb ee, emitTupleSlice tuple_type (some b) (some (some e)) = .ok (bb, ee) →
      0 ≤ bb ∧ bb ≤ tuple_type.length ∧ 0 ≤ ee ∧ ee ≤ tuple_type.length) := by
  have hL : (0 : Int) ≤ tuple_type.length := Int.ofNat_nonneg _
  refine ⟨rfl, ?_, ?_, ?_, ?_⟩
  · simp only [getTupleIndexVal, adjustedTupleIndex, Bool.not_false, Bool.true_and,
      Bool.or_eq_true, decide_eq_true_eq]
    split_ifs <;> first | rfl | omega
  · simp only [emitTupleSlice, getTupleIndexVal, adjustedTupleIndex, Bool.not_true,
      Bool.false_and, Bool.false_eq_true, if_false]
  · simp only [emitTupleSlice, getTupleIndexVal, adjustedTupleIndex, Bool.not_true,
      Bool.false_and, Bool.false_eq_true, if_false]
    congr 1
    refine Prod.ext rfl ?_
    simp only []
    omega
  · intro bb ee hok
    simp only [emitTupleSlice, getTupleIndexVal, adjustedTupleIndex, Bool.not_true,
      Bool.false_and, Bool.false_eq_true, if_false, Except.ok.injEq, Prod.mk.injEq] at hok
    obtain ⟨h1, h2⟩ := hok
    subst h1
    subst h2
    constructor
    · omega
    refine ⟨?_, ?_, ?_⟩ <;> omega

/- ******************* values produced during matching ******************* -/

/-- Graph values as seen by schema matching.  A value is either a
pre-existing graph value (raw, identified by id and type) or the output of
a node that matching itself inserts: createList, createTuple,
createTupleUnpack, createNoneGenerator, createUndefined, createNone,
createImplicitTensorToNum and the aten::device call.  Each constructor
records enough to read off the output type without recursion. -/
inductive Val where
  | raw (id : Nat) (ty : Ty)
  | mkList (elem_type : Ty) (elems : List Val)
  | mkTuple (elem_types : List Ty) (elems : List Val)
  | tupleUnpackOut (ty : Ty) (src : Val) (index : Nat)
  | noneGeneratorOut
  | undefinedOut
  | noneOut (elem_type : Ty)
  | implicitTensorToNumOut (ty : Ty) (src : Val)
  | deviceCallOut (src : Val)

/-- Output type of a value. -/
def Val.ty : Val → Ty
  | .raw _ t => t
  | .mkList e _ => .list e
  | .mkTuple ts _ => .tuple ts
  | .tupleUnpackOut t _ _ => t
  | .noneGeneratorOut => .generator
  | .undefinedOut => .dynamic
  | .noneOut e => .optional e
  | .implicitTensorToNumOut t _ => t
  | .deviceCallOut _ => .device

/-- Translation of createTupleUnpack, including its peephole: unpacking a
value produced by TupleConstruct returns the inputs of that node directly;
otherwise one TupleUnpack node is inserted and its outputs are returned. -/
def createTupleUnpack (v : Val) : List Val :=
  match v with
  | .mkTuple _ elems => elems
  | _ =>
    match v.ty with
    | .tuple ts => ts.enum.map (fun p => Val.tupleUnpackOut p.2 v p.1)
    | _ => []

/-- Translation of unwrapOptional: strip one Optional layer if present. -/
def unwrapOptional (opt_type : Ty) : Ty :=
  match opt_type with
  | .optional elem => elem
  | t => t

/-- Named value: an argument as passed to matching, optionally carrying a
keyword name. -/
structure NamedValue where
  name : Option String
  value : Val

/-- Translation of the Argument descriptor of a FunctionSchema: name, type,
optional fixed arity N for broadcasting lists, optional default value,
keyword-only flag. -/
structure Argument where
  name : String
  type : Ty
  N : Option Nat
  default_value : Option Val
  kwarg_only : Bool

/-- Translation of FunctionSchema: named, ordered arguments, ordered return
types, vararg flag. -/
structure FunctionSchema where
  name : String
  arguments : List Argument
  returns : List Ty
  is_vararg : Bool

/-- Translation of isIntOrFloatUsedAsList: a lone int or float actual may
stand for a broadcasting list int[N]/float[N] — the formal (after
unwrapping Optional) must be a list of exactly that element type and must
carry a fixed arity N. -/
def isIntOrFloatUsedAsList (value : Val) (arg : Argument) : Bool :=
  let v_type := value.ty
  if v_type != Ty.float && v_type != Ty.int then false
  else
    let arg_type := unwrapOptional arg.type
    match arg_type with
    | .list elem => elem == v_type && arg.N.isSome
    | _ => false

/-- Translation of convertibleToList: a type is convertible to a list type
if it is already a subtype of it, or if it is a tuple all of whose elements
are subtypes of the list element type. -/
def convertibleToList (type : Ty) (list_type : Ty) : Bool :=
  match list_type with
  | .list elem =>
    if type.isSubtypeOf list_type then true
    else
      match type with
      | .tuple ts => ts.all (fun t => t.isSubtypeOf elem)
      | _ => false
  | _ => false

/-- Type-variable environment of one match attempt (TypeEnv), fresh per
candidate and discarded on failure. -/
abbrev TypeEnv := List (Nat × Ty)

mutual

/-- Modelled from the spec: does a type mention a type variable (used by
matchTypeVariables, declared outside this translation unit). -/
def Ty.hasFreeVariables : Ty → Bool
  | .tvar _ => true
  | .optional t => t.hasFreeVariables
  | .list t => t.hasFreeVariables
  | .tuple ts => Ty.hasFreeVariablesList ts
  | .future t => t.hasFreeVariables
  | _ => false

/-- Free-variable check over a list of types. -/
def Ty.hasFreeVariablesList : List Ty → Bool
  | [] => false
  | t :: ts => t.hasFreeVariables || Ty.hasFreeVariablesList ts

end

mutual

/-- Modelled from the spec: matchTypeVariables — unify a (possibly generic)
formal type with an actual type: the first sighting of a type variable
binds it to the actual, a later sighting resolves to the earlier binding
(the subsequent subtype check enforces agreement); container types are
matched structurally.  Returns the resolved formal type and the updated
environment, or none if the structures cannot be matched. -/
def matchTypeVariables (formal actual : Ty) (type_env : TypeEnv) :
    Option (Ty × TypeEnv) :=
  if !formal.hasFreeVariables then some (formal, type_env)
  else
    match formal, actual with
    | .tvar id, _ =>
      match type_env.lookup id with
      | some bound => some (bound, type_env)
      | none => some (actual, (id, actual) :: type_env)
    | .optional f, .optional a =>
      match matchTypeVariables f a type_env with
      | some (t, env) => some (.optional t, env)
      | none => none
    | .list f, .list a =>
      match matchTypeVariables f a type_env with
      | some (t, env) => some (.list t, env)
      | none => none
    | .future f, .future a =>
      match matchTypeVariables f a type_env with
      | some (t, env) => some (.future t, env)
      | none => none
    | .tuple fs, .tuple actuals =>
      match matchTypeVariablesList fs actuals type_env with
      | some (ts, env) => some (.tuple ts, env)
      | none => none
    | _, _ => none

/-- matchTypeVariables over paired lists of types. -/
def matchTypeVariablesList (formals actuals : List Ty) (type_env : TypeEnv) :
    Option (List Ty × TypeEnv) :=
  match formals, actuals with
  | [], [] => some ([], type_env)
  | f :: fs, a :: as_ =>
    match matchTypeVariables f a type_env with
    | some (t, env) =>
      match matchTypeVariablesList fs as_ env with
      | some (ts, env2) => some (t :: ts, env2)
      | none => none
    | none => none
  | _, _ => none

end

mutual

/-- Modelled from the spec: evalTypeVariables — resolve the type variables
of a return type against the unification environment built during the
match. -/
def evalTypeVariables : Ty → TypeEnv → Ty
  | .tvar id, env => ((env.lookup id).getD (.tvar id))
  | .optional t, env => .optional (evalTypeVariables t env)
  | .list t, env => .list (evalTypeVariables t env)
  | .tuple ts, env => .tuple (evalTypeVariablesList ts env)
  | .future t, env => .future (evalTypeVariables t env)
  | t, _ => t

/-- evalTypeVariables over a list of types. -/
def evalTypeVariablesList : List Ty → TypeEnv → List Ty
  | [], _ => []
  | t :: ts, env => evalTypeVariables t env :: evalTypeVariablesList ts env

end

mutual

/-- Translation of tryConvertToType: the implicit conversions applied to an
actual before the final subtype check.  A homogeneous tuple converts to a
list of the appropriate element type; tuples convert pointwise to tuple
formals of the same size; a None actual converts to a generator, an
undefined tensor or a typed None for generator/Optional[Tensor]/Optional
formals; and, only when conversions are allowed, a tensor converts to a
number and a string to a device handle. -/
def tryConvertToType (concrete_type : Ty) (value : Val)
    (allow_conversions : Bool) : Val :=
  let value :=
    match value.ty with
    | .tuple value_elems =>
      if convertibleToList (.tuple value_elems) (unwrapOptional concrete_type) then
        match unwrapOptional concrete_type with
        | .list elem_type => Val.mkList elem_type (createTupleUnpack value)
        | _ => value
      else
        match concrete_type with
        | .tuple concrete_elems =>
          if !(Ty.tuple value_elems).isSubtypeOf (.tuple concrete_elems) &&
              concrete_elems.length == value_elems.length then
            let converted :=
              tryConvertElems concrete_elems (createTupleUnpack value) allow_conversions
            Val.mkTuple (converted.map Val.ty) converted
          else value
        | _ => value
    | _ => value
  let value :=
    if value.ty.isSubtypeOf .noneTy && !(concrete_type.isSubtypeOf .noneTy) then
      if concrete_type.isSubtypeOf .generator then Val.noneGeneratorOut
      else if concrete_type.isSubtypeOf (.optional .dynamic) then Val.undefinedOut
      else
        match concrete_type with
        | .optional elem_type => Val.noneOut elem_type
        | _ => value
    else value
  if allow_conversions then
    let value :=
      if concrete_type.isSubtypeOf .number && value.ty.isSubtypeOf .dynamic then
        Val.implicitTensorToNumOut concrete_type value
      else value
    if value.ty.isSubtypeOf .str && Ty.device.isSubtypeOf concrete_type then
      Val.deviceCallOut value
    else value
  else value

/-- Pointwise tryConvertToType over the elements of an unpacked tuple. -/
def tryConvertElems : List Ty → List Val → Bool → List Val
  | [], _, _ => []
  | _ :: _, [], _ => []
  | t :: ts, v :: vs, allow_conversions =>
    tryConvertToType t v allow_conversions :: tryConvertElems ts vs allow_conversions

end

/-- Translation of tryMatchArgument: apply the broadcasting-list expansion
for a lone int/float, unify the formal type with the actual type, apply
implicit conversions, and require the converted actual to be a subtype of
the resolved formal type. -/
def tryMatchArgument (arg : Argument) (named_value : NamedValue)
    (allow_conversions : Bool) (type_env : TypeEnv) : Option (Val × TypeEnv) :=
  let value := named_value.value
  let value :=
    if isIntOrFloatUsedAsList value arg then
      Val.mkList value.ty (List.replicate (arg.N.getD 0) value)
    else value
  match matchTypeVariables arg.type value.ty type_env with
  | none => none
  | some (concrete_type, type_env) =>
    let value := tryConvertToType concrete_type value allow_conversions
    if value.ty.isSubtypeOf concrete_type then some (value, type_env)
    else none

/-- Translation of findInputWithName: position of a keyword argument with
the given name. -/
def findInputWithName (name : String) (kwargs : List NamedValue) : Option Nat :=
  kwargs.findIdx? (fun nv => nv.name == some name)

/-- Loop body of tryCreateList: match every remaining positional argument
against the list element type and collect the results. -/
def tryCreateListLoop (elem_type : Ty) (varargs : List NamedValue)
    (allow_conversions : Bool) (type_env : TypeEnv) (list_ctor : List Val) :
    Option (List Val × TypeEnv) :=
  match varargs with
  | [] => some (list_ctor, type_env)
  | a :: rest =>
    match tryMatchArgument ⟨"<varargs>", elem_type, none, none, false⟩ a
        allow_conversions type_env with
    | none => none
    | some (av, env) => tryCreateListLoop elem_type rest allow_conversions env (list_ctor ++ [av])

/-- Translation of tryCreateList: build one list node from the remaining
positional arguments, each matched against the element type. -/
def tryCreateList (elem_type : Ty) (varargs : List NamedValue)
    (allow_conversions : Bool) (type_env : TypeEnv) : Option (Val × TypeEnv) :=
  match tryCreateListLoop elem_type varargs allow_conversions type_env [] with
  | none => none
  | some (list_ctor, env) => some (.mkList elem_type list_ctor, env)

/-- Running bookkeeping of one tryMatchSchema attempt: the unconsumed self
argument, the count of consumed positional arguments, the used flags of the
keyword arguments, the unification environment and the bound inputs. -/
structure MatchState where
  self : Option NamedValue
  used_args : Nat
  used_kwarg : List Bool
  type_env : TypeEnv
  positional_inputs : List Val

/-- Outcome of choosing the actual for one formal parameter (the if/else
chain at the head of the tryMatchSchema loop). -/
inductive ArgStep where
  | useValue (v : NamedValue) (st : MatchState)
  | greedyList (list : Val) (st : MatchState)
  | fail

/-- Helper for consuming the next positional argument. -/
def pickPositional (args : List NamedValue) (st : MatchState) : ArgStep :=
  match args.get? st.used_args with
  | some a => .useValue a { st with used_args := st.used_args + 1 }
  | none => .fail

/-- Greedy branch of the argument-selection chain: build one list from all
remaining positional arguments and mark them all consumed. -/
def pickArgGreedy (elem_type : Ty) (args : List NamedValue)
    (allow_conversions : Bool) (st : MatchState) : ArgStep :=
  match tryCreateList elem_type (args.drop st.used_args) allow_conversions
      st.type_env with
  | none => .fail
  | some (list, env) =>
    .greedyList list { st with used_args := args.length, type_env := env }

/-- Translation of the argument-selection chain of tryMatchSchema: bind
"self" to the receiver; else consume the next positional argument — where a
list-typed formal with no fixed arity N occupying the last positional slot
may instead greedily consume every remaining positional argument into one
created list, provided the actual is not already list-shaped; else use a
same-named keyword argument (failing on reuse); else the parameter
default; else fail. -/
def pickArg (arg : Argument) (rest : List Argument) (args kwargs : List NamedValue)
    (allow_conversions : Bool) (st : MatchState) : ArgStep :=
  if arg.name == "self" && st.self.isSome then
    match st.self with
    | some s => .useValue s { st with self := none }
    | none => .fail
  else if !arg.kwarg_only && st.used_args < args.length then
    let is_list_formal := match arg.type with | .list _ => true | _ => false
    let last_positional := match rest with | [] => true | r :: _ => r.kwarg_only
    if is_list_formal && arg.N.isNone && last_positional then
      match args.get? st.used_args with
      | none => .fail
      | some a =>
        let actual_type := a.value.ty
        let actual_is_list := match actual_type with | .list _ => true | _ => false
        if !actual_is_list && !convertibleToList actual_type (unwrapOptional arg.type) then
          match unwrapOptional arg.type with
          | .list elem_type => pickArgGreedy elem_type args allow_conversions st
          | _ => .fail
        else pickPositional args st
    else pickPositional args st
  else
    match findInputWithName arg.name kwargs with
    | some idx =>
      if st.used_kwarg.getD idx false then .fail
      else
        match kwargs.get? idx with
        | some nv => .useValue nv { st with used_kwarg := st.used_kwarg.set idx true }
        | none => .fail
    | none =>
      match arg.default_value with
      | some dv => .useValue ⟨none, dv⟩ st
      | none => .fail

/-- Translation of the main parameter loop of tryMatchSchema: walk the
formal parameters in order, choose an actual for each (or greedily build a
list), and check it with tryMatchArgument. -/
def matchArgsLoop (args kwargs : List NamedValue) (allow_conversions : Bool) :
    List Argument → MatchState → Option MatchState
  | [], st => some st
  | arg :: rest, st =>
    match pickArg arg rest args kwargs allow_conversions st with
    | .fail => none
    | .greedyList list st2 =>
      matchArgsLoop args kwargs allow_conversions rest
        { st2 with positional_inputs := st2.positional_inputs ++ [list] }
    | .useValue v st2 =>
      match tryMatchArgument arg v allow_conversions st2.type_env with
      | none => none
      | some (positional, env) =>
        matchArgsLoop args kwargs allow_conversions rest
          { st2 with type_env := env,
                     positional_inputs := st2.positional_inputs ++ [positional] }

/-- Result of a successful match: bound inputs in parameter order and the
resolved return types. -/
structure MatchedSchema where
  inputs : List Val
  return_types : List Ty

/-- Translation of tryMatchSchema: run the parameter loop from a fresh
state, then reject leftover positional arguments (unless the schema is
variadic, which appends them verbatim) and leftover keyword arguments, and
resolve the return types against the unification environment.  A leftover
self argument only records a failure message in the source and does not by
itself abort the match. -/
def tryMatchSchema (schema : FunctionSchema) (self : Option NamedValue)
    (args kwargs : List NamedValue) (allow_conversions : Bool) :
    Option MatchedSchema :=
  match matchArgsLoop args kwargs allow_conversions schema.arguments
      ⟨self, 0, List.replicate kwargs.length false, [], []⟩ with
  | none => none
  | some st =>
    let positional_inputs :=
      if schema.is_vararg then
        st.positional_inputs ++ (args.drop st.used_args).map (fun a => a.value)
      else st.positional_inputs
    let used_args := if schema.is_vararg then args.length else st.used_args
    if used_args < args.length then none
    else if st.used_kwarg.any (fun u => !u) then none
    else some ⟨positional_inputs, schema.returns.map (fun r => evalTypeVariables r st.type_env)⟩

/- ******************** two-pass overload resolution ********************* -/

/-- Modelled from the spec: try_emit_call_to (declared outside this
translation unit) matches the call against the schema of a library function
exactly like an operator schema and, on success, inlines the function body;
only the schema decides whether the candidate matches. -/
def tryEmitCallTo (method_schema : FunctionSchema) (self : Option NamedValue)
    (args kwargs : List NamedValue) (allow_conversions : Bool) :
    Option MatchedSchema :=
  tryMatchSchema method_schema self args kwargs allow_conversions

/-- Record of the call emitted by emitBuiltinCall: the pass that produced
it (false = conversions forbidden, true = conversions allowed), the index
of the selected candidate in registration order over the operator variants
followed by the builtin library functions, and the match itself. -/
structure BuiltinCallResult where
  allow_conversions : Bool
  candidate : Nat
  matched : MatchedSchema

/-- One registration-order scan of a candidate list, returning the first
full match together with its index (offset by base). -/
def findFirstMatchFrom (cands : List FunctionSchema) (self : Option NamedValue)
    (args kwargs : List NamedValue) (allow_conversions : Bool) (base : Nat) :
    Option (Nat × MatchedSchema) :=
  match cands with
  | [] => none
  | c :: cs =>
    match tryMatchSchema c self args kwargs allow_conversions with
    | some m => some (base, m)
    | none => findFirstMatchFrom cs self args kwargs allow_conversions (base + 1)

/-- One pass of emitBuiltinCall: scan the operator variants in registration
order, then the builtin library functions in registration order, with the
given conversion policy. -/
def emitBuiltinCallPass (variants builtin_functions : List FunctionSchema)
    (self : Option NamedValue) (args kwargs : List NamedValue)
    (allow_conversions : Bool) : Option (Nat × MatchedSchema) :=
  match findFirstMatchFrom variants self args kwargs allow_conversions 0 with
  | some r => some r
  | none =>
    findFirstMatchFrom builtin_functions self args kwargs allow_conversions
      variants.length

/-- Translation of emitBuiltinCall: first a pass with implicit conversions
forbidden over both candidate sets, and only if it matched nothing a second
pass with conversions allowed; within a pass the first full match in
registration order wins and its node is emitted. -/
def emitBuiltinCall (variants builtin_functions : List FunctionSchema)
    (self : Option NamedValue) (args kwargs : List NamedValue) :
    Option BuiltinCallResult :=
  match emitBuiltinCallPass variants builtin_functions self args kwargs false with
  | some (i, m) => some ⟨false, i, m⟩
  | none =>
    match emitBuiltinCallPass variants builtin_functions self args kwargs true with
    | some (i, m) => some ⟨true, i, m⟩
    | none => none

theorem findFirstMatchFrom_eq_none {cands : List FunctionSchema} {self args kwargs ac base} :
    findFirstMatchFrom cands self args kwargs ac base = none ↔
      ∀ c ∈ cands, tryMatchSchema c self args kwargs ac = none := by
  induction cands generalizing base with
  | nil => simp [findFirstMatchFrom]
  | cons c cs ih =>
    simp only [findFirstMatchFrom]
    cases h : tryMatchSchema c self args kwargs ac with
    | some m => simp [h]
    | none => simpa [h] using ih

theorem findFirstMatchFrom_eq_some {cands : List FunctionSchema} {self args kwargs ac base i m} :
    findFirstMatchFrom cands self args kwargs ac base = some (i, m) →
      base ≤ i ∧ i - base < cands.length ∧
      (∃ c, cands.get? (i - base) = some c ∧ tryMatchSchema c self args kwargs ac = some m) ∧
      (∀ j, j < i - base → ∀ cj, cands.get? j = some cj →
        tryMatchSchema cj self args kwargs ac = none) := by
  induction cands generalizing base with
  | nil => simp [findFirstMatchFrom]
  | cons c cs ih =>
    simp only [findFirstMatchFrom]
    cases h : tryMatchSchema c self args kwargs ac with
    | some m0 =>
      intro he
      have h1 : base = i := congrArg Prod.fst (Option.some.inj he)
      have h2 : m0 = m := congrArg Prod.snd (Option.some.inj he)
      subst h1
      subst h2
      refine ⟨le_refl _, by simp, ⟨c, by simp, by simp [h]⟩, ?_⟩
      intro j hj
      omega
    | none =>
      intro he
      obtain ⟨hb, hlen, ⟨cw, hcw, hm⟩, hearlier⟩ := ih he
      have hbase : base + 1 ≤ i := hb
      refine ⟨by omega, by simp; omega, ⟨cw, ?_, hm⟩, ?_⟩
      · have : i - base = (i - (base + 1)) + 1 := by omega
        rw [this]
        simpa using hcw
      · intro j hj cj hget
        cases j with
        | zero =>
          have hcc : c = cj := by simpa using hget
          exact hcc ▸ h
        | succ j0 =>
          have : j0 < i - (base + 1) := by omega
          exact hearlier j0 this cj (by simpa using hget)

/-- C1: emitBuiltinCall resolves a call by two passes — pass 1 (conversions
forbidden) and pass 2 (conversions allowed) — where pass 2 runs only if
pass 1 matched no candidate in either the operator-variant set or the
builtin-function set; within each pass the candidates are scanned in
registration order (variants before builtin functions) and the first full
match wins, with no best-match ranking; in particular, whenever some
candidate matches without conversions, the selected candidate itself
matches without conversions, regardless of registration order. -/
theorem emitBuiltinCall_two_pass (variants builtin_functions : List FunctionSchema)
    (self : Option NamedValue) (args kwargs : List NamedValue) :
    (∀ r, emitBuiltinCall variants builtin_functions self args kwargs = some r →
      (∃ c, (variants ++ builtin_functions).get? r.candidate = some c ∧
        tryMatchSchema c self args kwargs r.allow_conversions = some r.matched) ∧
      (∀ j, j < r.candidate → ∀ cj, (variants ++ builtin_functions).get? j = some cj →
        tryMatchSchema cj self args kwargs r.allow_conversions = none)) ∧
    (∀ r, emitBuiltinCall variants builtin_functions self args kwargs = some r →
      r.allow_conversions = true →
      ∀ c ∈ variants ++ builtin_functions, tryMatchSchema c self args kwargs false = none) ∧
    ((∃ c ∈ variants ++ builtin_functions,
        (tryMatchSchema c self args kwargs false).isSome) →
      ∃ r, emitBuiltinCall variants builtin_functions self args kwargs = some r ∧
        r.allow_conversions = false ∧
        ∃ c, (variants ++ builtin_functions).get? r.candidate = some c ∧
          tryMatchSchema c self args kwargs false = some r.matched) := by
  have passChar : ∀ ac i m,
      emitBuiltinCallPass variants builtin_functions self args kwargs ac = some (i, m) →
      (∃ c, (variants ++ builtin_functions).get? i = some c ∧
        tryMatchSchema c self args kwargs ac = some m) ∧
      (∀ j, j < i → ∀ cj, (variants ++ builtin_functions).get? j = some cj →
        tryMatchSchema cj self args kwargs ac = none) := by
    intro ac i m h
    unfold emitBuiltinCallPass at h
    cases hv : findFirstMatchFrom variants self args kwargs ac 0 with
    | some r =>
      rw [hv] at h
      have he := Option.some.inj h
      obtain ⟨hb, hlen, ⟨c, hc, hm⟩, hearlier⟩ := findFirstMatchFrom_eq_some (he ▸ hv)
      simp only [Nat.sub_zero] at hlen hc hearlier
      refine ⟨⟨c, ?_, hm⟩, ?_⟩
      · rw [List.get?_append hlen]
        exact hc
      · intro j hj cj hget
        have hjlt : j < variants.length := by omega
        rw [List.get?_append hjlt] at hget
        exact hearlier j hj cj hget
    | none =>
      rw [hv] at h
      have hvnone := findFirstMatchFrom_eq_none.1 hv
      obtain ⟨hb, hlen, ⟨c, hc, hm⟩, hearlier⟩ := findFirstMatchFrom_eq_some h
      refine ⟨⟨c, ?_, hm⟩, ?_⟩
      · rw [List.get?_append_right hb]
        exact hc
      · intro j hj cj hget
        by_cases hjv : j < variants.length
        · rw [List.get?_append hjv] at hget
          exact hvnone cj (List.get?_mem hget)
        · push_neg at hjv
          rw [List.get?_append_right hjv] at hget
          exact hearlier (j - variants.length) (by omega) cj hget
  have passNone : ∀ ac,
      emitBuiltinCallPass variants builtin_functions self args kwargs ac = none ↔
      ∀ c ∈ variants ++ builtin_functions, tryMatchSchema c self args kwargs ac = none := by
    intro ac
    unfold emitBuiltinCallPass
    cases hv : findFirstMatchFrom variants self args kwargs ac 0 with
    | some r =>
      simp only [Option.some_ne_none, false_iff]
      intro hall
      obtain ⟨hb, hlen, ⟨c, hc, hm⟩, _⟩ := findFirstMatchFrom_eq_some hv
      have : tryMatchSchema c self args kwargs ac = none :=
        hall c (List.mem_append_left _ (List.get?_mem (by simpa using hc)))
      simp [this] at hm
    | none =>
      rw [findFirstMatchFrom_eq_none]
      have hvnone := findFirstMatchFrom_eq_none.1 hv
      constructor
      · intro hall c hmem
        rcases List.mem_append.1 hmem with h | h
        · exact hvnone c h
        · exact hall c h
      · intro hall c hmem
        exact hall c (List.mem_append_right _ hmem)
  refine ⟨?_, ?_, ?_⟩
  · intro r hr
    unfold emitBuiltinCall at hr
    cases h0 : emitBuiltinCallPass variants builtin_functions self args kwargs false with
    | some p =>
      rw [h0] at hr
      obtain ⟨i, m⟩ := p
      have := Option.some.inj hr
      subst this
      exact passChar false i m h0
    | none =>
      rw [h0] at hr
      cases h1 : emitBuiltinCallPass variants builtin_functions self args kwargs true with
      | some p =>
        rw [h1] at hr
        obtain ⟨i, m⟩ := p
        have := Option.some.inj hr
        subst this
        exact passChar true i m h1
      | none => rw [h1] at hr; exact absurd hr (by simp)
  · intro r hr htrue
    unfold emitBuiltinCall at hr
    cases h0 : emitBuiltinCallPass variants builtin_functions self args kwargs false with
    | some p =>
      rw [h0] at hr
      obtain ⟨i, m⟩ := p
      have := Option.some.inj hr
      subst this
      simp at htrue
    | none =>
      exact (passNone false).1 h0
  · intro ⟨c, hmem, hsome⟩
    cases h0 : emitBuiltinCallPass variants builtin_functions self args kwargs false with
    | none =>
      have := (passNone false).1 h0 c hmem
      simp [this] at hsome
    | some p =>
      obtain ⟨i, m⟩ := p
      refine ⟨⟨false, i, m⟩, ?_, rfl, ?_⟩
      · unfold emitBuiltinCall
        rw [h0]
      · exact (passChar false i m h0).1

/-- Example operator whose single parameter has type number, so that a
tensor argument matches only through the implicit tensor-to-number
conversion of pass 2. -/
def overloadNeedsConversion : FunctionSchema :=
  ⟨"f", [⟨"x", .number, none, none, false⟩], [], false⟩

/-- Example operator whose single parameter has type Tensor, matching a
tensor argument with no conversion. -/
def overloadNoConversion : FunctionSchema :=
  ⟨"f", [⟨"x", .dynamic, none, none, false⟩], [], false⟩

/-- Witness for C1: with the conversion-needing overload registered before
the conversion-free one and a tensor argument, resolution still selects the
conversion-free candidate (index 1) in pass 1. -/
theorem emitBuiltinCall_two_pass_witness :
    (∃ r, emitBuiltinCall [overloadNeedsConversion, overloadNoConversion] [] none
        [⟨none, Val.raw 0 .dynamic⟩] [] = some r ∧ r.allow_conversions = false) ∧
    emitBuiltinCall [overloadNeedsConversion, overloadNoConversion] [] none
        [⟨none, Val.raw 0 .dynamic⟩] [] =
      some ⟨false, 1, ⟨[Val.raw 0 .dynamic], []⟩⟩ := by
  constructor
  · obtain ⟨r, hr, hf, _⟩ :=
      (emitBuiltinCall_two_pass [overloadNeedsConversion, overloadNoConversion] [] none
        [⟨none, Val.raw 0 .dynamic⟩] []).2.2
        ⟨overloadNoConversion, by simp, by rfl⟩
    exact ⟨r, hr, hf⟩
  · rfl

/-- C6 (amended): during per-candidate schema binding, a list-typed
parameter carrying no fixed arity N that occupies the last positional slot
greedily consumes all remaining positional arguments and synthesizes one
list from them, provided the next actual is not already list-shaped (and
the elements all match the list element type): the loop continues with
every remaining positional argument consumed and exactly one created list
value bound to that parameter. -/
theorem greedy_list_consumes_remaining
    (arg : Argument) (rest : List Argument) (args kwargs : List NamedValue)
    (allow_conversions : Bool) (st : MatchState)
    (elem_type : Ty) (a : NamedValue) (lst : Val) (env2 : TypeEnv)
    (hself : (arg.name == "self" && st.self.isSome) = false)
    (hkw : arg.kwarg_only = false)
    (hpos : st.used_args < args.length)
    (hty : arg.type = .list elem_type)
    (hN : arg.N = none)
    (hlast : (match rest with | [] => true | r :: _ => r.kwarg_only) = true)
    (ha : args.get? st.used_args = some a)
    (hnotlist : (match a.value.ty with | .list _ => true | _ => false) = false)
    (hnotconv : convertibleToList a.value.ty (unwrapOptional arg.type) = false)
    (hcreate : tryCreateList elem_type (args.drop st.used_args) allow_conversions
        st.type_env = some (lst, env2)) :
    matchArgsLoop args kwargs allow_conversions (arg :: rest) st =
      matchArgsLoop args kwargs allow_conversions rest
        { st with used_args := args.length, type_env := env2,
                  positional_inputs := st.positional_inputs ++ [lst] } ∧
    ∃ list_ctor, lst = Val.mkList elem_type list_ctor := by
  have hstep : pickArg arg rest args kwargs allow_conversions st =
      .greedyList lst { st with used_args := args.length, type_env := env2 } := by
    unfold pickArg
    rw [hself]
    simp only [Bool.false_eq_true, if_false, hkw, Bool.not_false, Bool.true_and,
      decide_eq_true_eq]
    rw [if_pos hpos]
    simp only [hty, hN, Option.isNone_none, Bool.and_true, Bool.true_and, hlast,
      Bool.and_self]
    simp only [if_true, ha]
    have hnc : convertibleToList a.value.ty (unwrapOptional (Ty.list elem_type)) = false := by
      have h0 := hnotconv
      rw [hty] at h0
      exact h0
    simp only [hnotlist, Bool.not_false, Bool.true_and, hnc, Bool.and_self, if_true]
    show pickArgGreedy elem_type args allow_conversions st =
      .greedyList lst { st with used_args := args.length, type_env := env2 }
    unfold pickArgGreedy
    rw [hcreate]
  constructor
  · simp only [matchArgsLoop, hstep]
  · unfold tryCreateList at hcreate
    cases hloop : tryCreateListLoop elem_type (args.drop st.used_args) allow_conversions
        st.type_env [] with
    | none => rw [hloop] at hcreate; exact absurd hcreate (by simp)
    | some p =>
      rw [hloop] at hcreate
      obtain ⟨ctor, env0⟩ := p
      have := Option.some.inj hcreate
      exact ⟨ctor, (congrArg Prod.fst this).symm⟩

/-- Example schema whose single parameter is a broadcasting list int[3]
(fixed arity N = 3) in the last positional slot. -/
def broadcastingListOverload : FunctionSchema :=
  ⟨"f", [⟨"x", .list .int, some 3, none, false⟩], [], false⟩

/-- Counterexample for C6 as stated: the spec defines "fixed arity" as the
optional N of an Argument, and for a list parameter that does carry a fixed
arity (int[3]) in the last positional slot, three int arguments (none of
them list-shaped) are NOT greedily consumed into one list — the candidate
match fails outright (the lone first int is broadcast to [x, x, x] and the
two remaining positional arguments are left over), where the claim implies
a successful match binding one synthesized three-element list. -/
theorem greedy_list_counterexample :
    tryMatchSchema broadcastingListOverload none
      [⟨none, Val.raw 0 .int⟩, ⟨none, Val.raw 1 .int⟩, ⟨none, Val.raw 2 .int⟩]
      [] false = none := by
  rfl

/-- Witness for C6 (amended): a schema f(x : int[]) with arity-free list
parameter and two loose int arguments consumes both into one created
list. -/
theorem greedy_list_consumes_remaining_witness :
    matchArgsLoop [⟨none, Val.raw 0 .int⟩, ⟨none, Val.raw 1 .int⟩] [] false
        [⟨"sizes", .list .int, none, none, false⟩] ⟨none, 0, [], [], []⟩ =
      some ⟨none, 2, [], [], [Val.mkList .int [Val.raw 0 .int, Val.raw 1 .int]]⟩ := by
  have h := greedy_list_consumes_remaining
    ⟨"sizes", .list .int, none, none, false⟩ [] [⟨none, Val.raw 0 .int⟩, ⟨none, Val.raw 1 .int⟩]
    [] false ⟨none, 0, [], [], []⟩ .int ⟨none, Val.raw 0 .int⟩
    (Val.mkList .int [Val.raw 0 .int, Val.raw 1 .int]) []
    rfl rfl (by decide) rfl rfl rfl rfl rfl rfl rfl
  rw [h.1]
  rfl

/- ********************* environment / scope stack *********************** -/

/-- A first-class graph value: identity and static type.  The optional
debug name of the C++ Value is only used for diagnostics and printing and
is not modelled. -/
structure Value where
  id : Nat
  ty : Ty
  deriving DecidableEq

/-- The compile-time denotation of a resolved name (SugaredValue): a plain
first-class value (SimpleValue), the none marker (NoneValue), a callable
(PrintValue, CastValue, BuiltinFunction, MethodValue, ForkValue, ...) or an
attribute projection.  The kind string is the diagnostic tag that asValue
interpolates into its error. -/
inductive SugaredVal where
  | simple (v : Value)
  | noneMarker
  | callable (kind : String)
  | attributeProj (kind : String)
  deriving DecidableEq

/-- Diagnostic kind of a sugared value (SugaredValue::kind). -/
def SugaredVal.kind : SugaredVal → String
  | .simple _ => "value"
  | .noneMarker => "None"
  | .callable k => k
  | .attributeProj k => k

/-- Translation of asSimple: the underlying Value of a SimpleValue, null
otherwise. -/
def asSimple : SugaredVal → Option Value
  | .simple v => some v
  | _ => none

/-- Overwriting insertion into an unordered-map modelled as an association
list (the C++ operator[] assignment). -/
def tableSet {val : Type} (table : List (String × val)) (name : String) (v : val) :
    List (String × val) :=
  (name, v) :: table.filter (fun p => p.1 != name)

/-- One Environment frame: the name-to-sugared-value table (an unordered
map in the source, modelled as an association list), the deferred
type-error table (only ever populated on the root frame), whether the
block of the frame is owned by a Loop node (getBlockOwningKind equal to prim::Loop)
and the alphabetically ordered captured-input names. -/
structure Frame where
  value_table : List (String × SugaredVal)
  error_messages : List (String × Err)
  isLoopBlock : Bool
  captured_inputs : List String

/-- Translation of Environment::findInThisFrame. -/
def findInThisFrame (f : Frame) (name : String) : Option SugaredVal :=
  List.lookup name f.value_table

/-- Translation of Environment::findInAnyFrame over an explicit chain of
frames, innermost first. -/
def findInAnyFrame : List Frame → String → Option SugaredVal
  | [], _ => none
  | f :: rest, name =>
    match findInThisFrame f name with
    | some r => some r
    | none => findInAnyFrame rest name

/-- Alphabetical insertion position scan of createCapturedInput: the name
is inserted before the first captured name it does not exceed. -/
def insertCaptured (name : String) : List String → List String
  | [] => [name]
  | x :: xs => if name > x then x :: insertCaptured name xs else name :: x :: xs

/-- Translation of createCapturedInputIfNeeded (with createCapturedInput
inlined), threading the frame chain and the fresh-id counter: search this
frame; otherwise resolve through the parent frames recursively, and when
the block of this frame is owned by a Loop node and the parent result is
a plain value, insert a new Block input carrying the type of the parent
value
(modelled by a fresh Value), record the name in the sorted captured-input
list and bind it locally.  The physical Block-input slot (one past the
reserved trip-count input, at the sorted rank) is represented by the order
of captured_inputs. -/
def createCapturedInputIfNeeded (f : Frame) (rest : List Frame) (next_id : Nat)
    (ident : String) : Option SugaredVal × Frame × List Frame × Nat :=
  match findInThisFrame f ident with
  | some v => (some v, f, rest, next_id)
  | none =>
    let step : Option SugaredVal × List Frame × Nat :=
      match rest with
      | [] => (none, [], next_id)
      | g :: gs =>
        let r := createCapturedInputIfNeeded g gs next_id ident
        (r.1, r.2.1 :: r.2.2.1, r.2.2.2)
    match step with
    | (none, rest2, n2) => (none, f, rest2, n2)
    | (some fp, rest2, n2) =>
      if f.isLoopBlock then
        match asSimple fp with
        | some simple_val =>
          let new_input : Value := ⟨n2, simple_val.ty⟩
          let sv := SugaredVal.simple new_input
          (some sv,
           { f with captured_inputs := insertCaptured ident f.captured_inputs,
                    value_table := tableSet f.value_table ident sv },
           rest2, n2 + 1)
        | none => (some fp, f, rest2, n2)
      else (some fp, f, rest2, n2)

/-- Translation of setVariableTypeError: record a deferred type error on
the lowest (root) frame of the chain. -/
def setVariableTypeError (f : Frame) (rest : List Frame) (name : String)
    (msg : Err) : Frame × List Frame :=
  match rest with
  | [] => ({ f with error_messages := tableSet f.error_messages name msg }, [])
  | g :: gs =>
    let r := setVariableTypeError g gs name msg
    (f, r.1 :: r.2)

/-- Translation of findVariableTypeError: read a deferred type error from
the root frame of the chain. -/
def findVariableTypeError (f : Frame) (rest : List Frame) (ident : String) :
    Option Err :=
  match rest with
  | [] => List.lookup ident f.error_messages
  | g :: gs => findVariableTypeError g gs ident

/-- Fixed table of global builtin names consulted by getSugaredVar after
the frame chain misses (print, the float/int/bool casts, getattr,
isinstance, _to_tensor); each is a callable, none is a first-class
value. -/
def globalsLookup (ident : String) : Option SugaredVal :=
  if ident == "print" || ident == "float" || ident == "int" || ident == "bool" ||
      ident == "getattr" || ident == "isinstance" || ident == "_to_tensor" then
    some (.callable ident)
  else none

/-- Translation of Environment::getSugaredVar (with required = true): the
frame chain first (materializing captured loop inputs), then the fixed
global table, then the external resolver; on a complete miss, a recorded
deferred type error for the name is raised in place of the plain
undefined-value error. -/
def getSugaredVar (f : Frame) (rest : List Frame) (next_id : Nat)
    (resolver : String → Option SugaredVal) (ident : String) :
    Except Err (SugaredVal × Frame × List Frame × Nat) :=
  match createCapturedInputIfNeeded f rest next_id ident with
  | (some r, f2, rest2, n2) => .ok (r, f2, rest2, n2)
  | (none, f2, rest2, n2) =>
    match globalsLookup ident with
    | some g => .ok (g, f2, rest2, n2)
    | none =>
      match resolver ident with
      | some r => .ok (r, f2, rest2, n2)
      | none =>
        match findVariableTypeError f2 rest2 ident with
        | some msg => .error (.deferredUsed msg)
        | none => .error (.undefinedValue ident)

/-- Translation of Environment::getVar: getSugaredVar followed by asValue,
which fails on any non-simple sugared value. -/
def getVar (f : Frame) (rest : List Frame) (next_id : Nat)
    (resolver : String → Option SugaredVal) (ident : String) :
    Except Err (Value × Frame × List Frame × Nat) :=
  match getSugaredVar f rest next_id resolver ident with
  | .error e => .error e
  | .ok (sv, f2, rest2, n2) =>
    match asSimple sv with
    | some v => .ok (v, f2, rest2, n2)
    | none => .error (.expectedValueButFound sv.kind)

/-- Translation of Environment::setSugaredVar.  The unique-name tagging of
the incoming value (source lines 258-266) only sets a debug name used by
printing and is not modelled.  A name already bound in an enclosing frame
may be rebound only if both the new value and the old binding are plain
first-class values and the new type is a subtype of the shape-erased old
type; a plain-value binding materializes a captured loop input if needed
before the innermost table is written. -/
def setSugaredVar (f : Frame) (rest : List Frame) (next_id : Nat) (name : String)
    (value : SugaredVal) : Except Err (Frame × List Frame × Nat) :=
  let as_simple_value := asSimple value
  let checked : Except Err Unit :=
    match findInAnyFrame rest name with
    | none => .ok ()
    | some parent =>
      match as_simple_value with
      | none => .error (.reassignNotFirstClass name)
      | some new_val =>
        match asSimple parent with
        | none => .error (.reassignNotFirstClass name)
        | some simple_parent =>
          if !(new_val.ty.isSubtypeOf (unshapedType simple_parent.ty)) then
            .error (.reassignTypeMismatch name simple_parent.ty new_val.ty)
          else .ok ()
  match checked with
  | .error e => .error e
  | .ok _ =>
    let captured : Frame × List Frame × Nat :=
      if as_simple_value.isSome then
        let r := createCapturedInputIfNeeded f rest next_id name
        (r.2.1, r.2.2.1, r.2.2.2)
      else (f, rest, next_id)
    .ok ({ captured.1 with
            value_table := tableSet captured.1.value_table name value },
         captured.2.1, captured.2.2)

/-- C4: a set on a name already bound in an enclosing frame succeeds if and
only if both the old binding and the new value are plain first-class
values and the new type is a subtype of the shape-erased old type;
otherwise it fails with a reassignment error whose constructor
distinguishes the not-first-class case from the incompatible-type case. -/
theorem set_var_rebind_rules (f : Frame) (rest : List Frame) (next_id : Nat)
    (name : String) (value parent : SugaredVal)
    (hparent : findInAnyFrame rest name = some parent) :
    (asSimple value = none →
      setSugaredVar f rest next_id name value = .error (.reassignNotFirstClass name)) ∧
    (∀ v, asSimple value = some v → asSimple parent = none →
      setSugaredVar f rest next_id name value = .error (.reassignNotFirstClass name)) ∧
    (∀ v pv, asSimple value = some v → asSimple parent = some pv →
      v.ty.isSubtypeOf (unshapedType pv.ty) = false →
      setSugaredVar f rest next_id name value =
        .error (.reassignTypeMismatch name pv.ty v.ty)) ∧
    (∀ v pv, asSimple value = some v → asSimple parent = some pv →
      v.ty.isSubtypeOf (unshapedType pv.ty) = true →
      ∃ f2 rest2 n2, setSugaredVar f rest next_id name value = .ok (f2, rest2, n2) ∧
        findInThisFrame f2 name = some value) ∧
    ((∃ res, setSugaredVar f rest next_id name value = .ok res) ↔
      ∃ v pv, asSimple value = some v ∧ asSimple parent = some pv ∧
        v.ty.isSubtypeOf (unshapedType pv.ty) = true) := by
  refine ⟨?_, ?_, ?_, ?_, ?_⟩
  · intro hnone
    simp only [setSugaredVar, hparent, hnone]
  · intro v hv hpnone
    simp only [setSugaredVar, hparent, hv, hpnone]
  · intro v pv hv hpv hsub
    simp only [setSugaredVar, hparent, hv, hpv, hsub, Bool.not_false, if_true]
  · intro v pv hv hpv hsub
    simp only [setSugaredVar, hparent, hv, hpv, hsub, Bool.not_true, Bool.false_eq_true,
      if_false, Option.isSome_some, if_true]
    refine ⟨_, _, _, rfl, ?_⟩
    simp [findInThisFrame, tableSet, List.lookup]
  · constructor
    · intro ⟨res, hres⟩
      simp only [setSugaredVar, hparent] at hres
      cases hv : asSimple value with
      | none => simp only [hv] at hres; exact absurd hres (by simp)
      | some v =>
        simp only [hv] at hres
        cases hpv : asSimple parent with
        | none => simp only [hpv] at hres; exact absurd hres (by simp)
        | some pv =>
          simp only [hpv] at hres
          cases hsub : v.ty.isSubtypeOf (unshapedType pv.ty) with
          | false =>
            simp only [hsub, Bool.not_false, if_true] at hres
            exact absurd hres (by simp)
          | true => exact ⟨v, pv, rfl, rfl, hsub⟩
    · intro ⟨v, pv, hv, hpv, hsub⟩
      simp only [setSugaredVar, hparent, hv, hpv, hsub, Bool.not_true, Bool.false_eq_true,
        if_false, Option.isSome_some, if_true]
      exact ⟨_, rfl⟩

/-- Witness for C4: with variable a previously bound to a shaped tensor in
the root frame, rebinding to a plain Tensor value succeeds (its type is a
subtype of the shape-erased old type), while rebinding to an int fails
with the incompatible-type reassignment error, and rebinding to the none
marker fails with the not-first-class reassignment error. -/
theorem set_var_rebind_rules_witness :
    (∃ f2 rest2 n2,
      setSugaredVar ⟨[], [], false, []⟩
        [⟨[("a", .simple ⟨0, .tensor [2, 3]⟩)], [], false, []⟩] 5 "a"
        (.simple ⟨1, .dynamic⟩) = .ok (f2, rest2, n2) ∧
      findInThisFrame f2 "a" = some (.simple ⟨1, .dynamic⟩)) ∧
    setSugaredVar ⟨[], [], false, []⟩
        [⟨[("a", .simple ⟨0, .tensor [2, 3]⟩)], [], false, []⟩] 5 "a"
        (.simple ⟨1, .int⟩) =
      .error (.reassignTypeMismatch "a" (.tensor [2, 3]) .int) ∧
    setSugaredVar ⟨[], [], false, []⟩
        [⟨[("a", .simple ⟨0, .tensor [2, 3]⟩)], [], false, []⟩] 5 "a"
        .noneMarker = .error (.reassignNotFirstClass "a") := by
  refine ⟨?_, ?_, ?_⟩
  · exact (set_var_rebind_rules ⟨[], [], false, []⟩
      [⟨[("a", .simple ⟨0, .tensor [2, 3]⟩)], [], false, []⟩] 5 "a"
      (.simple ⟨1, .dynamic⟩) (.simple ⟨0, .tensor [2, 3]⟩) rfl).2.2.2.1
      ⟨1, .dynamic⟩ ⟨0, .tensor [2, 3]⟩ rfl rfl (by rfl)
  · exact (set_var_rebind_rules ⟨[], [], false, []⟩
      [⟨[("a", .simple ⟨0, .tensor [2, 3]⟩)], [], false, []⟩] 5 "a"
      (.simple ⟨1, .int⟩) (.simple ⟨0, .tensor [2, 3]⟩) rfl).2.2.1
      ⟨1, .int⟩ ⟨0, .tensor [2, 3]⟩ rfl rfl (by rfl)
  · exact (set_var_rebind_rules ⟨[], [], false, []⟩
      [⟨[("a", .simple ⟨0, .tensor [2, 3]⟩)], [], false, []⟩] 5 "a"
      .noneMarker (.simple ⟨0, .tensor [2, 3]⟩) rfl).1 rfl

/- **************** if/else reconciliation (emitIfElseBlocks) ************* -/

/-- Sorted-set insertion: the mutated-variable names are collected into a
std::set<std::string>, which iterates in sorted order (the source comments
that an ordered set is used for deterministic graph output). -/
def sortedSetInsert (l : List String) (v : String) : List String :=
  match l with
  | [] => [v]
  | x :: xs =>
    if v < x then v :: x :: xs
    else if v = x then x :: xs
    else x :: sortedSetInsert xs v

/-- Translation of Environment::definedVariables: the names bound directly
in this frame. -/
def definedVariables (f : Frame) : List String :=
  f.value_table.map (fun p => p.1)

/-- The ordered set of mutated variables of an if/else statement: names
defined in one branch frame and visible anywhere in the other branch
chain, collected into a sorted set. -/
def mutatedVariables (save_true save_false : Frame) (outer : List Frame) :
    List String :=
  let fromTrue := (definedVariables save_true).filter
    (fun v => (findInAnyFrame (save_false :: outer) v).isSome)
  let fromFalse := (definedVariables save_false).filter
    (fun v => (findInAnyFrame (save_true :: outer) v).isSome)
  (fromTrue ++ fromFalse).foldl sortedSetInsert []

/-- Result of emitIfElseBlocks reconciliation: the updated enclosing
environment chain, the next fresh value id, and the outputs registered on
the true block, the false block and the If node, in emission order. -/
structure IfResult where
  outer : List Frame
  next_id : Nat
  true_outputs : List Value
  false_outputs : List Value
  node_outputs : List Value

/-- Translation of the per-variable reconciliation loop of
emitIfElseBlocks: read the variable from both branch environments, unify
the two types; on failure, throw if the name is bound in an enclosing
frame (both branch frames share the outer chain, so the two
findInParentFrame calls of the source coincide) and otherwise defer the
error onto the root frame and continue; on success register the two block
outputs and bind a fresh If-node output in the enclosing environment. -/
def reconcileLoop (resolver : String → Option SugaredVal) :
    List String → Frame → Frame → IfResult → Except Err IfResult
  | [], _, _, res => .ok res
  | x :: xs, t_frame, f_frame, res =>
    match getVar t_frame res.outer res.next_id resolver x with
    | .error e => .error e
    | .ok (tv, t_frame2, outer2, n2) =>
      match getVar f_frame outer2 n2 resolver x with
      | .error e => .error e
      | .ok (fv, f_frame2, outer3, n3) =>
        match unifyTypes tv.ty fv.ty with
        | none =>
          if (findInAnyFrame outer3 x).isSome then
            .error (.branchTypeMismatch x tv.ty fv.ty)
          else
            let r := setVariableTypeError t_frame2 outer3 x
              (.branchTypeMismatch x tv.ty fv.ty)
            reconcileLoop resolver xs r.1 f_frame2
              { res with outer := r.2, next_id := n3 }
        | some unified =>
          let node_output : Value := ⟨n3, unified⟩
          match outer3 with
          | [] => .error (.undefinedValue x)
          | o :: os =>
            match setSugaredVar o os (n3 + 1) x (.simple node_output) with
            | .error e => .error e
            | .ok (o2, os2, n4) =>
              reconcileLoop resolver xs t_frame2 f_frame2
                ⟨o2 :: os2, n4,
                 res.true_outputs ++ [tv],
                 res.false_outputs ++ [fv],
                 res.node_outputs ++ [node_output]⟩

/-- Translation of the reconciliation phase of to_ir::emitIfElseBlocks,
entered after the two branches were emitted into the two blocks of the one
If node: compute the ordered mutated-variable set and run the
reconciliation loop over it.  (The empty-chain arm inside the loop is
unreachable: the enclosing environment always holds at least the function
root frame.) -/
def emitIfElseBlocks (save_true save_false : Frame) (outer : List Frame)
    (next_id : Nat) (resolver : String → Option SugaredVal) :
    Except Err IfResult :=
  reconcileLoop resolver (mutatedVariables save_true save_false outer)
    save_true save_false ⟨outer, next_id, [], [], []⟩

theorem findInAnyFrame_after_set_type_error (rest : List Frame) (f : Frame)
    (name : String) (msg : Err) (ident : String) :
    findInAnyFrame ((setVariableTypeError f rest name msg).1 ::
        (setVariableTypeError f rest name msg).2) ident =
      findInAnyFrame (f :: rest) ident := by
  induction rest generalizing f with
  | nil => simp [setVariableTypeError, findInAnyFrame, findInThisFrame]
  | cons g gs ih =>
    simp only [setVariableTypeError, findInAnyFrame]
    cases findInThisFrame f ident with
    | some v => rfl
    | none => simpa using ih g

theorem createCapturedInputIfNeeded_miss (rest : List Frame) (f : Frame)
    (next_id : Nat) (ident : String)
    (h : findInAnyFrame (f :: rest) ident = none) :
    createCapturedInputIfNeeded f rest next_id ident = (none, f, rest, next_id) := by
  induction rest generalizing f next_id with
  | nil =>
    have hthis : findInThisFrame f ident = none := by
      simp only [findInAnyFrame] at h
      cases h0 : findInThisFrame f ident with
      | some v => rw [h0] at h; exact absurd h (by simp)
      | none => rfl
    simp [createCapturedInputIfNeeded, hthis]
  | cons g gs ih =>
    have hthis : findInThisFrame f ident = none := by
      simp only [findInAnyFrame] at h
      cases h0 : findInThisFrame f ident with
      | some v => rw [h0] at h; exact absurd h (by simp)
      | none => rfl
    have hrest : findInAnyFrame (g :: gs) ident = none := by
      simp only [findInAnyFrame, hthis] at h
      exact h
    simp [createCapturedInputIfNeeded, hthis, ih g next_id hrest]

theorem findVariableTypeError_after_set (rest : List Frame) (f : Frame)
    (name : String) (msg : Err) :
    findVariableTypeError (setVariableTypeError f rest name msg).1
      (setVariableTypeError f rest name msg).2 name = some msg := by
  induction rest generalizing f with
  | nil => simp [setVariableTypeError, findVariableTypeError, tableSet, List.lookup]
  | cons g gs ih => simpa [setVariableTypeError, findVariableTypeError] using ih g

/-- C2: for an if/else whose two branches bind the same name to values of
types that fail to unify — if the name is already bound in an enclosing
frame, reconciliation fails immediately with the branch type-mismatch
error; otherwise the if/else itself compiles (no output is registered for
the name), the error is recorded on the root frame, and the first later
read of the name (one that neither the global table nor the resolver
intercepts) raises the recorded diagnostic. -/
theorem if_branch_mismatch_defer_rules (x : String) (tv fv : Value)
    (o : Frame) (os : List Frame) (next_id : Nat)
    (resolver : String → Option SugaredVal) (save_true save_false : Frame)
    (ht : save_true.value_table = [(x, .simple tv)])
    (hf : save_false.value_table = [(x, .simple fv)])
    (hu : unifyTypes tv.ty fv.ty = none) :
    ((findInAnyFrame (o :: os) x).isSome →
      emitIfElseBlocks save_true save_false (o :: os) next_id resolver =
        .error (.branchTypeMismatch x tv.ty fv.ty)) ∧
    (findInAnyFrame (o :: os) x = none →
      ∃ o2 os2,
        emitIfElseBlocks save_true save_false (o :: os) next_id resolver =
          .ok ⟨o2 :: os2, next_id, [], [], []⟩ ∧
        (globalsLookup x = none → resolver x = none → ∀ n2,
          getSugaredVar o2 os2 n2 resolver x =
            .error (.deferredUsed (.branchTypeMismatch x tv.ty fv.ty)))) := by
  have hmut : mutatedVariables save_true save_false (o :: os) = [x] := by
    simp [mutatedVariables, definedVariables, ht, hf, findInAnyFrame, findInThisFrame,
      List.lookup, sortedSetInsert, lt_self_iff_false]
  have hgetT : getVar save_true (o :: os) next_id resolver x =
      .ok (tv, save_true, o :: os, next_id) := by
    simp [getVar, getSugaredVar, createCapturedInputIfNeeded, findInThisFrame, ht,
      List.lookup, asSimple]
  have hgetF : getVar save_false (o :: os) next_id resolver x =
      .ok (fv, save_false, o :: os, next_id) := by
    simp [getVar, getSugaredVar, createCapturedInputIfNeeded, findInThisFrame, hf,
      List.lookup, asSimple]
  constructor
  · intro hsome
    unfold emitIfElseBlocks
    rw [hmut]
    simp only [reconcileLoop, hgetT, hgetF, hu]
    rw [if_pos hsome]
  · intro hnone
    refine ⟨(setVariableTypeError o os x (.branchTypeMismatch x tv.ty fv.ty)).1,
      (setVariableTypeError o os x (.branchTypeMismatch x tv.ty fv.ty)).2, ?_, ?_⟩
    · unfold emitIfElseBlocks
      rw [hmut]
      simp only [reconcileLoop, hgetT, hgetF, hu]
      rw [if_neg (by simp [hnone])]
      simp [setVariableTypeError, reconcileLoop]
    · intro hg hres n2
      have hmiss : findInAnyFrame
          ((setVariableTypeError o os x (.branchTypeMismatch x tv.ty fv.ty)).1 ::
           (setVariableTypeError o os x (.branchTypeMismatch x tv.ty fv.ty)).2) x = none := by
        rw [findInAnyFrame_after_set_type_error]
        exact hnone
      have hcap := createCapturedInputIfNeeded_miss
        (setVariableTypeError o os x (.branchTypeMismatch x tv.ty fv.ty)).2
        (setVariableTypeError o os x (.branchTypeMismatch x tv.ty fv.ty)).1
        n2 x hmiss
      have hderr := findVariableTypeError_after_set os o x
        (.branchTypeMismatch x tv.ty fv.ty)
      simp [getSugaredVar, hcap, hg, hres, hderr]

/-- Witness for C2: branches bind a to int resp. Tensor over an empty root
frame; the if/else compiles with no reconciled output, and a later read of
a raises the deferred branch type mismatch. -/
theorem if_branch_mismatch_defer_rules_witness :
    ∃ o2 os2,
      emitIfElseBlocks ⟨[("a", .simple ⟨1, .int⟩)], [], false, []⟩
          ⟨[("a", .simple ⟨2, .dynamic⟩)], [], false, []⟩
          [⟨[], [], false, []⟩] 7 (fun _ => none) =
        .ok ⟨o2 :: os2, 7, [], [], []⟩ ∧
      getSugaredVar o2 os2 9 (fun _ => none) "a" =
        .error (.deferredUsed (.branchTypeMismatch "a" .int .dynamic)) := by
  obtain ⟨o2, os2, h1, h2⟩ :=
    (if_branch_mismatch_defer_rules "a" ⟨1, .int⟩ ⟨2, .dynamic⟩ ⟨[], [], false, []⟩ []
      7 (fun _ => none) ⟨[("a", .simple ⟨1, .int⟩)], [], false, []⟩
      ⟨[("a", .simple ⟨2, .dynamic⟩)], [], false, []⟩ rfl rfl (by rfl)).2 rfl
  exact ⟨o2, os2, h1, h2 rfl rfl 9⟩

/- ************ determinism of if/else reconciliation (C8) *************** -/

theorem lookup_eq_of_perm {val : Type} {l1 l2 : List (String × val)}
    (hp : l1.Perm l2) (hn : (l1.map Prod.fst).Nodup) (k : String) :
    List.lookup k l1 = List.lookup k l2 := by
  induction hp with
  | nil => rfl
  | @cons x t1 t2 p ih =>
    obtain ⟨xa, xb⟩ := x
    simp only [List.lookup]
    cases hx : k == xa with
    | true => rfl
    | false =>
      simp only [List.map, List.nodup_cons] at hn
      exact ih hn.2
  | @swap x y t =>
    obtain ⟨xa, xb⟩ := x
    obtain ⟨ya, yb⟩ := y
    simp only [List.map, List.nodup_cons, List.mem_cons, List.mem_map] at hn
    simp only [List.lookup]
    cases hy : k == ya with
    | true =>
      cases hx : k == xa with
      | true =>
        exfalso
        have h1 : k = ya := eq_of_beq hy
        have h2 : k = xa := eq_of_beq hx
        exact hn.1 (Or.inl (h2 ▸ h1.symm ▸ rfl))
      | false => rfl
    | false =>
      cases hx : k == xa with
      | true => rfl
      | false => rfl
  | trans p1 p2 ih1 ih2 =>
    rw [ih1 hn, ih2 ((p1.map Prod.fst).nodup_iff.1 hn)]

theorem mem_sortedSetInsert (l : List String) (v a : String) :
    a ∈ sortedSetInsert l v ↔ a = v ∨ a ∈ l := by
  induction l with
  | nil => simp [sortedSetInsert]
  | cons x xs ih =>
    simp only [sortedSetInsert]
    split_ifs with h1 h2
    · simp
    · subst h2
      constructor
      · intro h; exact Or.inr h
      · intro h
        rcases h with h | h
        · exact h ▸ List.mem_cons_self _ _
        · exact h
    · simp only [List.mem_cons, ih]
      constructor
      · intro h
        rcases h with h | h | h
        · exact Or.inr (Or.inl h)
        · exact Or.inl h
        · exact Or.inr (Or.inr h)
      · intro h
        rcases h with h | h | h
        · exact Or.inr (Or.inl h)
        · exact Or.inl h
        · exact Or.inr (Or.inr h)

theorem sorted_sortedSetInsert (l : List String) (v : String)
    (hs : l.Sorted (· < ·)) : (sortedSetInsert l v).Sorted (· < ·) := by
  induction l with
  | nil => simp [sortedSetInsert]
  | cons x xs ih =>
    simp only [sortedSetInsert]
    rw [List.sorted_cons] at hs
    split_ifs with h1 h2
    · refine List.sorted_cons.2 ⟨?_, List.sorted_cons.2 hs⟩
      intro b hb
      rcases List.mem_cons.1 hb with h | h
      · exact h ▸ h1
      · exact lt_trans h1 (hs.1 b h)
    · exact List.sorted_cons.2 hs
    · refine List.sorted_cons.2 ⟨?_, ih hs.2⟩
      intro b hb
      rcases (mem_sortedSetInsert xs v b).1 hb with h | h
      · subst h
        push_neg at h1
        exact lt_of_le_of_ne h1 (Ne.symm h2)
      · exact hs.1 b h

theorem sorted_foldl_sortedSetInsert (l : List String) (init : List String)
    (hs : init.Sorted (· < ·)) :
    (l.foldl sortedSetInsert init).Sorted (· < ·) := by
  induction l generalizing init with
  | nil => simpa using hs
  | cons x xs ih => exact ih _ (sorted_sortedSetInsert init x hs)

theorem mem_foldl_sortedSetInsert (l : List String) (init : List String) (a : String) :
    a ∈ l.foldl sortedSetInsert init ↔ a ∈ init ∨ a ∈ l := by
  induction l generalizing init with
  | nil => simp
  | cons x xs ih =>
    simp only [List.foldl_cons, ih, mem_sortedSetInsert, List.mem_cons]
    tauto

theorem foldl_sortedSetInsert_eq_of_perm (l1 l2 : List String)
    (hp : l1.Perm l2) :
    l1.foldl sortedSetInsert [] = l2.foldl sortedSetInsert [] := by
  haveI : IsAntisymm String (· < ·) :=
    ⟨fun a b h1 h2 => absurd h2 (lt_asymm h1)⟩
  have hs1 := sorted_foldl_sortedSetInsert l1 [] (by simp)
  have hs2 := sorted_foldl_sortedSetInsert l2 [] (by simp)
  refine List.eq_of_perm_of_sorted ?_ hs1 hs2
  refine (List.perm_ext_iff_of_nodup hs1.nodup hs2.nodup).2 ?_
  intro a
  rw [mem_foldl_sortedSetInsert, mem_foldl_sortedSetInsert]
  simp only [List.not_mem_nil, false_or]
  exact ⟨fun h => hp.mem_iff.1 h, fun h => hp.mem_iff.2 h⟩

theorem createCaptured_congr (f1 f2 : Frame) (rest : List Frame) (n : Nat)
    (ident : String)
    (hlook : findInThisFrame f1 ident = findInThisFrame f2 ident)
    (hloop1 : f1.isLoopBlock = false) (hloop2 : f2.isLoopBlock = false) :
    ∃ r rest2 n2,
      createCapturedInputIfNeeded f1 rest n ident = (r, f1, rest2, n2) ∧
      createCapturedInputIfNeeded f2 rest n ident = (r, f2, rest2, n2) := by
  cases h : findInThisFrame f2 ident with
  | some v =>
    have h1 : findInThisFrame f1 ident = some v := hlook.trans h
    refine ⟨some v, rest, n, ?_, ?_⟩ <;> cases rest <;>
      simp [createCapturedInputIfNeeded, h1, h]
  | none =>
    have h1 : findInThisFrame f1 ident = none := hlook.trans h
    cases rest with
    | nil =>
      refine ⟨none, [], n, ?_, ?_⟩ <;> simp [createCapturedInputIfNeeded, h1, h]
    | cons g gs =>
      obtain ⟨r1, g2, gs2, n2, hr⟩ : ∃ r1 g2 gs2 n2,
          createCapturedInputIfNeeded g gs n ident = (r1, g2, gs2, n2) :=
        ⟨_, _, _, _, rfl⟩
      cases r1 with
      | none =>
        refine ⟨none, g2 :: gs2, n2, ?_, ?_⟩ <;>
          simp [createCapturedInputIfNeeded, h1, h, hr]
      | some fp =>
        refine ⟨some fp, g2 :: gs2, n2, ?_, ?_⟩ <;>
          simp [createCapturedInputIfNeeded, h1, h, hr, hloop1, hloop2]

theorem getSugaredVar_congr (f1 f2 : Frame) (rest : List Frame) (n : Nat)
    (resolver : String → Option SugaredVal) (ident : String)
    (hlook : findInThisFrame f1 ident = findInThisFrame f2 ident)
    (hloop1 : f1.isLoopBlock = false) (hloop2 : f2.isLoopBlock = false)
    (herr : f1.error_messages = f2.error_messages) :
    (∃ e, getSugaredVar f1 rest n resolver ident = .error e ∧
          getSugaredVar f2 rest n resolver ident = .error e) ∨
    (∃ sv rest2 n2, getSugaredVar f1 rest n resolver ident = .ok (sv, f1, rest2, n2) ∧
          getSugaredVar f2 rest n resolver ident = .ok (sv, f2, rest2, n2)) := by
  obtain ⟨r, rest2, n2, hc1, hc2⟩ :=
    createCaptured_congr f1 f2 rest n ident hlook hloop1 hloop2
  cases r with
  | some sv =>
    right
    exact ⟨sv, rest2, n2, by simp [getSugaredVar, hc1], by simp [getSugaredVar, hc2]⟩
  | none =>
    cases hg : globalsLookup ident with
    | some g =>
      right
      exact ⟨g, rest2, n2, by simp [getSugaredVar, hc1, hg], by simp [getSugaredVar, hc2, hg]⟩
    | none =>
      cases hres : resolver ident with
      | some r0 =>
        right
        exact ⟨r0, rest2, n2, by simp [getSugaredVar, hc1, hg, hres],
          by simp [getSugaredVar, hc2, hg, hres]⟩
      | none =>
        left
        have hfvte : findVariableTypeError f1 rest2 ident =
            findVariableTypeError f2 rest2 ident := by
          cases rest2 with
          | nil => simp [findVariableTypeError, herr]
          | cons g gs => simp [findVariableTypeError]
        cases hv : findVariableTypeError f2 rest2 ident with
        | some msg =>
          exact ⟨.deferredUsed msg, by simp [getSugaredVar, hc1, hg, hres, hfvte, hv],
            by simp [getSugaredVar, hc2, hg, hres, hv]⟩
        | none =>
          exact ⟨.undefinedValue ident, by simp [getSugaredVar, hc1, hg, hres, hfvte, hv],
            by simp [getSugaredVar, hc2, hg, hres, hv]⟩

theorem getVar_congr (f1 f2 : Frame) (rest : List Frame) (n : Nat)
    (resolver : String → Option SugaredVal) (ident : String)
    (hlook : findInThisFrame f1 ident = findInThisFrame f2 ident)
    (hloop1 : f1.isLoopBlock = false) (hloop2 : f2.isLoopBlock = false)
    (herr : f1.error_messages = f2.error_messages) :
    (∃ e, getVar f1 rest n resolver ident = .error e ∧
          getVar f2 rest n resolver ident = .error e) ∨
    (∃ v rest2 n2, getVar f1 rest n resolver ident = .ok (v, f1, rest2, n2) ∧
          getVar f2 rest n resolver ident = .ok (v, f2, rest2, n2)) := by
  rcases getSugaredVar_congr f1 f2 rest n resolver ident hlook hloop1 hloop2 herr with
    ⟨e, h1, h2⟩ | ⟨sv, rest2, n2, h1, h2⟩
  · exact Or.inl ⟨e, by simp [getVar, h1], by simp [getVar, h2]⟩
  · cases hs : asSimple sv with
    | some v =>
      exact Or.inr ⟨v, rest2, n2, by simp [getVar, h1, hs], by simp [getVar, h2, hs]⟩
    | none =>
      exact Or.inl ⟨.expectedValueButFound sv.kind, by simp [getVar, h1, hs],
        by simp [getVar, h2, hs]⟩

/-- Relation between two frames that differ only in the (unordered-map)
iteration order of their value tables. -/
def FrameTableRel (f1 f2 : Frame) : Prop :=
  f1.value_table.Perm f2.value_table ∧ (f1.value_table.map Prod.fst).Nodup ∧
  f1.error_messages = f2.error_messages ∧
  f1.isLoopBlock = false ∧ f2.isLoopBlock = false

theorem FrameTableRel.lookup_eq {f1 f2 : Frame} (h : FrameTableRel f1 f2)
    (ident : String) : findInThisFrame f1 ident = findInThisFrame f2 ident :=
  lookup_eq_of_perm h.1 h.2.1 ident

theorem setVariableTypeError_rel (t1 t2 : Frame) (rest : List Frame)
    (x : String) (e : Err) (hrt : FrameTableRel t1 t2) :
    FrameTableRel (setVariableTypeError t1 rest x e).1
      (setVariableTypeError t2 rest x e).1 ∧
    (setVariableTypeError t1 rest x e).2 = (setVariableTypeError t2 rest x e).2 := by
  cases rest with
  | nil =>
    refine ⟨⟨hrt.1, hrt.2.1, ?_, hrt.2.2.2.1, hrt.2.2.2.2⟩, rfl⟩
    show tableSet t1.error_messages x e = tableSet t2.error_messages x e
    rw [hrt.2.2.1]
  | cons g gs => exact ⟨hrt, rfl⟩

theorem reconcileLoop_congr (resolver : String → Option SugaredVal)
    (names : List String) :
    ∀ (t1 t2 f1 f2 : Frame) (res : IfResult),
    FrameTableRel t1 t2 → FrameTableRel f1 f2 →
    reconcileLoop resolver names t1 f1 res = reconcileLoop resolver names t2 f2 res := by
  induction names with
  | nil => intro t1 t2 f1 f2 res _ _; rfl
  | cons x xs ih =>
    intro t1 t2 f1 f2 res hrt hrf
    rcases getVar_congr t1 t2 res.outer res.next_id resolver x (hrt.lookup_eq x)
        hrt.2.2.2.1 hrt.2.2.2.2 hrt.2.2.1 with
      ⟨e, ht1, ht2⟩ | ⟨tv, outer2, n2, ht1, ht2⟩
    · simp [reconcileLoop, ht1, ht2]
    · rcases getVar_congr f1 f2 outer2 n2 resolver x (hrf.lookup_eq x)
          hrf.2.2.2.1 hrf.2.2.2.2 hrf.2.2.1 with
        ⟨e, hf1, hf2⟩ | ⟨fv, outer3, n3, hf1, hf2⟩
      · simp [reconcileLoop, ht1, ht2, hf1, hf2]
      · cases hu : unifyTypes tv.ty fv.ty with
        | none =>
          cases hp : (findInAnyFrame outer3 x).isSome with
          | true => simp [reconcileLoop, ht1, ht2, hf1, hf2, hu, hp]
          | false =>
            simp only [reconcileLoop, ht1, ht2, hf1, hf2, hu, hp, Bool.false_eq_true,
              if_false]
            obtain ⟨hrel, heq⟩ :=
              setVariableTypeError_rel t1 t2 outer3 x (.branchTypeMismatch x tv.ty fv.ty) hrt
            rw [heq]
            exact ih _ _ _ _ _ hrel hrf
        | some unified =>
          cases outer3 with
          | nil => simp [reconcileLoop, ht1, ht2, hf1, hf2, hu]
          | cons o os =>
            simp only [reconcileLoop, ht1, ht2, hf1, hf2, hu]
            cases hset : setSugaredVar o os (n3 + 1) x (.simple ⟨n3, unified⟩) with
            | error e => simp [hset]
            | ok r =>
              obtain ⟨o2, os2, n4⟩ := r
              simp only [hset]
              exact ih _ _ _ _ _ hrt hrf

theorem mutatedVariables_congr (t1 t2 f1 f2 : Frame) (outer : List Frame)
    (hrt : FrameTableRel t1 t2) (hrf : FrameTableRel f1 f2) :
    mutatedVariables t1 f1 outer = mutatedVariables t2 f2 outer := by
  unfold mutatedVariables
  apply foldl_sortedSetInsert_eq_of_perm
  apply List.Perm.append
  · have hpred : ∀ v, (findInAnyFrame (f1 :: outer) v).isSome =
        (findInAnyFrame (f2 :: outer) v).isSome := by
      intro v
      have hl := hrf.lookup_eq v
      simp only [findInAnyFrame, hl]
    have hstep : (definedVariables t1).filter
          (fun v => (findInAnyFrame (f1 :: outer) v).isSome) =
        (definedVariables t1).filter
          (fun v => (findInAnyFrame (f2 :: outer) v).isSome) :=
      List.filter_congr (fun v _ => hpred v)
    rw [hstep]
    exact (hrt.1.map _).filter _
  · have hpred : ∀ v, (findInAnyFrame (t1 :: outer) v).isSome =
        (findInAnyFrame (t2 :: outer) v).isSome := by
      intro v
      have hl := hrt.lookup_eq v
      simp only [findInAnyFrame, hl]
    have hstep : (definedVariables f1).filter
          (fun v => (findInAnyFrame (t1 :: outer) v).isSome) =
        (definedVariables f1).filter
          (fun v => (findInAnyFrame (t2 :: outer) v).isSome) :=
      List.filter_congr (fun v _ => hpred v)
    rw [hstep]
    exact (hrf.1.map _).filter _

/-- C8: the reconciliation of an if/else is deterministic in the face of
the only representation freedom of the frames — the iteration order of the
unordered value tables: two compilations whose branch frames agree up to a
permutation of their tables produce identical results (the same outputs in
the same order with the same types), because the mutated variables are
collected into an ordered set before emission.  Together with the purity
of every operation of the embedding, compiling the same body twice with
the same registries and resolver yields structurally identical graphs. -/
theorem emitIfElseBlocks_deterministic
    (tbl1 tbl2 ftbl1 ftbl2 : List (String × SugaredVal))
    (et ef : List (String × Err)) (ct cf : List String)
    (outer : List Frame) (next_id : Nat) (resolver : String → Option SugaredVal)
    (hpt : tbl1.Perm tbl2) (hnt : (tbl1.map Prod.fst).Nodup)
    (hpf : ftbl1.Perm ftbl2) (hnf : (ftbl1.map Prod.fst).Nodup) :
    emitIfElseBlocks ⟨tbl1, et, false, ct⟩ ⟨ftbl1, ef, false, cf⟩ outer next_id resolver =
    emitIfElseBlocks ⟨tbl2, et, false, ct⟩ ⟨ftbl2, ef, false, cf⟩ outer next_id resolver := by
  have hrt : FrameTableRel ⟨tbl1, et, false, ct⟩ ⟨tbl2, et, false, ct⟩ :=
    ⟨hpt, hnt, rfl, rfl, rfl⟩
  have hrf : FrameTableRel ⟨ftbl1, ef, false, cf⟩ ⟨ftbl2, ef, false, cf⟩ :=
    ⟨hpf, hnf, rfl, rfl, rfl⟩
  unfold emitIfElseBlocks
  rw [mutatedVariables_congr _ _ _ _ outer hrt hrf]
  exact reconcileLoop_congr resolver _ _ _ _ _ _ hrt hrf

/-- Witness for C8: two orderings of the same two-entry branch tables give
the same reconciliation result. -/
theorem emitIfElseBlocks_deterministic_witness :
    emitIfElseBlocks
        ⟨[("a", .simple ⟨1, .int⟩), ("b", .simple ⟨2, .bool⟩)], [], false, []⟩
        ⟨[("a", .simple ⟨3, .int⟩), ("b", .simple ⟨4, .bool⟩)], [], false, []⟩
        [⟨[], [], false, []⟩] 9 (fun _ => none) =
      emitIfElseBlocks
        ⟨[("b", .simple ⟨2, .bool⟩), ("a", .simple ⟨1, .int⟩)], [], false, []⟩
        ⟨[("b", .simple ⟨4, .bool⟩), ("a", .simple ⟨3, .int⟩)], [], false, []⟩
        [⟨[], [], false, []⟩] 9 (fun _ => none) := by
  apply emitIfElseBlocks_deterministic
  · exact List.Perm.swap _ _ _
  · decide
  · exact List.Perm.swap _ _ _
  · decide

/- ************ emitIf is/is-not metaprogramming (C3) ******************** -/

/-- Nodes emitted at statement level: a builtin call (identified by its
operation symbol) or a Conditional (prim::If) node holding the two branch
blocks. -/
inductive GNode where
  | callOp (op : String)
  | condNode (true_block false_block : List GNode)

/-- Modelled from the spec: SugaredValue::isNone — the compile-time niladic
status of a value: always none, never none, or maybe none. -/
inductive NoneStatus where
  | always
  | never
  | maybe
  deriving DecidableEq

/-- The two identity-test condition kinds dispatched specially by emitIf
(TK_IS and TK_ISNOT). -/
inductive CondKind where
  | isCond
  | isNotCond
  deriving DecidableEq

/-- Operation symbol of the comparison emitted in the fall-back case
(getNodeKind on TK_IS / TK_ISNOT). -/
def isOpSymbol : CondKind → String
  | .isCond => "aten::__is__"
  | .isNotCond => "aten::__isnot__"

/-- Translation of to_ir::emitIf for is/is-not conditions (the
meta-programming path): both operands are emitted first (their nodes are
lhs_nodes and rhs_nodes); if both operands are always-none only the
statements of the always-none branch are emitted, if one is always-none
and the other never-none only the statements of the never-none branch are
emitted, and
in every other status combination a boolean comparison call is emitted
followed by the general if/else lowering with one Conditional node holding
both branches.  true_nodes / false_nodes stand for the nodes the branch
statements emit. -/
def emitIfIsNone (kind : CondKind) (lhs_nodes rhs_nodes : List GNode)
    (lhs_none rhs_none : NoneStatus) (true_nodes false_nodes : List GNode) :
    List GNode :=
  let always_none_branch := match kind with
    | .isCond => true_nodes
    | .isNotCond => false_nodes
  let never_none_branch := match kind with
    | .isCond => false_nodes
    | .isNotCond => true_nodes
  lhs_nodes ++ rhs_nodes ++
    (if lhs_none == .always && rhs_none == .always then
      always_none_branch
    else if (lhs_none == .always && rhs_none == .never) ||
        (lhs_none == .never && rhs_none == .always) then
      never_none_branch
    else
      [.callOp (isOpSymbol kind), .condNode true_nodes false_nodes])

/-- Translation of the general branch of to_ir::emitIf (conditions that are
not is/is-not): emit the boolean condition, then emitIfElseBlocks builds
one Conditional node holding the two branches. -/
def emitIfGeneral (cond_nodes true_nodes false_nodes : List GNode) : List GNode :=
  cond_nodes ++ [.condNode true_nodes false_nodes]

/-- The statically decided value of the identity test when the two niladic
statuses are jointly conclusive: both always-none decides it true, one
always-none against one never-none decides it false, every other
combination (including two never-none operands) is inconclusive. -/
def staticallyDecidedIs : NoneStatus → NoneStatus → Option Bool
  | .always, .always => some true
  | .always, .never => some false
  | .never, .always => some false
  | _, _ => none

/-- Number of Conditional nodes in a statement-level node list. -/
def countCond (l : List GNode) : Nat :=
  l.countP (fun n => match n with | .condNode _ _ => true | _ => false)

theorem countCond_append (l1 l2 : List GNode) :
    countCond (l1 ++ l2) = countCond l1 + countCond l2 :=
  List.countP_append _ _ _

/-- C3: for a condition a is b / a is not b whose operand niladic statuses
are jointly conclusive, only the statically determined branch statements
are emitted after the operands, with no Conditional node added at all; in
every other case (an inconclusive status combination, or a condition that
is not an identity test) the compiler emits the boolean comparison (resp.
the condition) followed by the general if/else lowering, adding exactly
one Conditional node. -/
theorem if_is_none_static_dispatch (kind : CondKind)
    (lhs_nodes rhs_nodes true_nodes false_nodes : List GNode)
    (lhs_none rhs_none : NoneStatus) :
    (∀ b, staticallyDecidedIs lhs_none rhs_none = some b →
      emitIfIsNone kind lhs_nodes rhs_nodes lhs_none rhs_none true_nodes false_nodes =
        lhs_nodes ++ rhs_nodes ++
          (if (kind == .isCond) == b then true_nodes else false_nodes) ∧
      countCond (emitIfIsNone kind lhs_nodes rhs_nodes lhs_none rhs_none
          true_nodes false_nodes) =
        countCond lhs_nodes + countCond rhs_nodes +
          countCond (if (kind == .isCond) == b then true_nodes else false_nodes)) ∧
    (staticallyDecidedIs lhs_none rhs_none = none →
      emitIfIsNone kind lhs_nodes rhs_nodes lhs_none rhs_none true_nodes false_nodes =
        lhs_nodes ++ rhs_nodes ++
          [.callOp (isOpSymbol kind), .condNode true_nodes false_nodes] ∧
      countCond (emitIfIsNone kind lhs_nodes rhs_nodes lhs_none rhs_none
          true_nodes false_nodes) =
        countCond lhs_nodes + countCond rhs_nodes + 1) ∧
    (∀ cond_nodes : List GNode,
      countCond (emitIfGeneral cond_nodes true_nodes false_nodes) =
        countCond cond_nodes + 1) := by
  refine ⟨?_, ?_, ?_⟩
  · intro b hb
    cases lhs_none <;> cases rhs_none <;>
      simp only [staticallyDecidedIs, Option.some.injEq, reduceCtorEq] at hb <;>
      subst hb <;> cases kind <;>
      simp [emitIfIsNone, countCond_append, countCond, Nat.add_assoc]
  · intro hb
    cases lhs_none <;> cases rhs_none <;>
      simp only [staticallyDecidedIs, reduceCtorEq] at hb <;> cases kind <;>
      simp [emitIfIsNone, isOpSymbol, countCond_append, countCond, Nat.add_assoc]
  · intro cond_nodes
    simp [emitIfGeneral, countCond_append, countCond]

/-- Witness for C3: a is None with never-none lhs and always-none rhs
collapses to the false branch with no Conditional node; with a maybe-none
lhs the comparison call plus exactly one Conditional node is emitted. -/
theorem if_is_none_static_dispatch_witness :
    emitIfIsNone .isCond [] [] .never .always [.callOp "t"] [.callOp "f"] =
      [.callOp "f"] ∧
    countCond (emitIfIsNone .isCond [] [] .maybe .always [.callOp "t"] [.callOp "f"]) =
      1 := by
  constructor
  · have h := ((if_is_none_static_dispatch .isCond [] [] [.callOp "t"] [.callOp "f"]
      .never .always).1 false rfl).1
    simpa using h
  · have h := ((if_is_none_static_dispatch .isCond [] [] [.callOp "t"] [.callOp "f"]
      .maybe .always).2.1 rfl).2
    simpa [countCond] using h

/- ******************* ternary conditional (C7) ************************** -/

/-- The one Conditional node built by emitIfExpr: its condition input, its
two blocks (the nodes lowered into each block and the value each block
registers as output) and the single output value of the node. -/
structure IfExprNode where
  cond : Value
  true_nodes : List GNode
  true_output : Value
  false_nodes : List GNode
  false_output : Value
  output : Value

/-- Translation of to_ir::emitIfExpr: both branch expressions are lowered
into the two blocks of one new Conditional node, each block registering
its result as the block output; the shape-erased types of the two block
outputs must be equal, otherwise the mismatch error is thrown immediately
(no deferral — contrast emitIfElseBlocks, which can record the error for a
later read); on success the single node output carries the unified
type. -/
def emitIfExpr (next_id : Nat) (cond : Value) (true_nodes : List GNode)
    (true_out : Value) (false_nodes : List GNode) (false_out : Value) :
    Except Err (IfExprNode × Nat) :=
  let true_type := unshapedType true_out.ty
  let false_type := unshapedType false_out.ty
  if true_type ≠ false_type then
    .error (.ifExprTypeMismatch true_type false_type)
  else
    .ok (⟨cond, true_nodes, true_out, false_nodes, false_out, ⟨next_id, true_type⟩⟩,
      next_id + 1)

/-- C7: a ternary conditional lowers both branches into the two blocks of
one Conditional node; the two branch result types must unify exactly
(equality of the shape-erased types); if they do not, compilation fails
immediately at the expression with the branch-type error, and on success
the single node output carries the unified type. -/
theorem ternary_branches_unify_exactly (next_id : Nat) (cond : Value)
    (tn fn : List GNode) (tv fv : Value) :
    (unshapedType tv.ty = unshapedType fv.ty →
      ∃ node, emitIfExpr next_id cond tn tv fn fv = .ok (node, next_id + 1) ∧
        node.cond = cond ∧ node.true_nodes = tn ∧ node.false_nodes = fn ∧
        node.true_output = tv ∧ node.false_output = fv ∧
        node.output.ty = unshapedType tv.ty ∧
        node.output.ty = unshapedType fv.ty) ∧
    (unshapedType tv.ty ≠ unshapedType fv.ty →
      emitIfExpr next_id cond tn tv fn fv =
        .error (.ifExprTypeMismatch (unshapedType tv.ty) (unshapedType fv.ty))) := by
  constructor
  · intro heq
    refine ⟨⟨cond, tn, tv, fn, fv, ⟨next_id, unshapedType tv.ty⟩⟩, ?_, rfl, rfl, rfl,
      rfl, rfl, rfl, heq ▸ rfl⟩
    simp [emitIfExpr, heq]
  · intro hne
    simp [emitIfExpr, hne]

/-- Witness for C7: int and Tensor branch results do not unify and fail
immediately; two tensor results with different known shapes unify to the
shape-erased Tensor type. -/
theorem ternary_branches_unify_exactly_witness :
    emitIfExpr 3 ⟨0, .bool⟩ [] ⟨1, .int⟩ [] ⟨2, .dynamic⟩ =
      .error (.ifExprTypeMismatch .int .dynamic) ∧
    ∃ node, emitIfExpr 3 ⟨0, .bool⟩ [] ⟨1, .tensor [2]⟩ [] ⟨2, .tensor [4]⟩ =
      .ok (node, 4) ∧ node.output.ty = .dynamic := by
  constructor
  · exact (ternary_branches_unify_exactly 3 ⟨0, .bool⟩ [] [] ⟨1, .int⟩ ⟨2, .dynamic⟩).2
      (by decide)
  · obtain ⟨node, h1, _, _, _, _, _, h2, _⟩ :=
      (ternary_branches_unify_exactly 3 ⟨0, .bool⟩ [] [] ⟨1, .tensor [2]⟩
        ⟨2, .tensor [4]⟩).1 (by decide)
    refine ⟨node, h1, ?_⟩
    rw [h2]
    rfl

/- ******************* return-statement placement (C9) ******************* -/

/-- Statements as dispatched by to_ir::emitStatements; payloads that do not
influence the return-placement behavior (expressions, assignment targets)
are omitted. -/
inductive Stmt where
  | ifStmt (true_branch false_branch : List Stmt)
  | whileStmt (body : List Stmt)
  | forStmt (body : List Stmt)
  | assignStmt
  | augAssignStmt
  | globalStmt
  | exprStmt
  | raiseStmt
  | assertStmt
  | passStmt
  | returnStmt

mutual

/-- Translation of the return-placement behavior of to_ir::emitStatements:
statements are emitted in order, if/while/for recurse into their nested
statement lists through the same emitter, a return statement anywhere in
this emitter throws (return statements can appear only at the end of the
function body), and every other statement kind emits normally. -/
def emitStatements : List Stmt → Except Err Unit
  | [] => .ok ()
  | s :: rest =>
    match emitStmt s with
    | .error e => .error e
    | .ok _ => emitStatements rest

/-- Per-statement dispatch of the return-placement skeleton (the general
if/else lowering emits both branch statement lists). -/
def emitStmt : Stmt → Except Err Unit
  | .ifStmt t f =>
    match emitStatements t with
    | .error e => .error e
    | .ok _ => emitStatements f
  | .whileStmt body => emitStatements body
  | .forStmt body => emitStatements body
  | .returnStmt => .error .returnNotAtEnd
  | _ => .ok ()

end

mutual

/-- Does a statement list contain a return statement anywhere, including
inside the nested blocks the general statement emitter descends into. -/
def containsReturn : List Stmt → Bool
  | [] => false
  | s :: rest => stmtContainsReturn s || containsReturn rest

/-- Does one statement contain a return statement. -/
def stmtContainsReturn : Stmt → Bool
  | .ifStmt t f => containsReturn t || containsReturn f
  | .whileStmt body => containsReturn body
  | .forStmt body => containsReturn body
  | .returnStmt => true
  | _ => false

end

/-- One graph output of a compiled function: the value of the trailing
return expression, or the None constant inserted when the body has no
return statement. -/
inductive GraphOutput where
  | noneConstant
  | returnedValue
  deriving DecidableEq

/-- Translation of the body handling in the to_ir constructor: a trailing
return statement is peeled off before emitStatements runs over the rest,
and emitReturn then registers the single graph output of the function —
the value of the return expression, or a None constant
when there is no return statement. -/
def to_ir_body (stmts : List Stmt) : Except Err (List GraphOutput) :=
  let has_trailing_return :=
    match stmts.getLast? with
    | some .returnStmt => true
    | _ => false
  let body := if has_trailing_return then stmts.dropLast else stmts
  match emitStatements body with
  | .error e => .error e
  | .ok _ => .ok [if has_trailing_return then .returnedValue else .noneConstant]

mutual

theorem emitStatements_char : ∀ l : List Stmt,
    emitStatements l = (if containsReturn l then .error .returnNotAtEnd else .ok ())
  | [] => rfl
  | s :: rest => by
    have hs := emitStmt_char s
    have hr := emitStatements_char rest
    simp only [emitStatements, containsReturn, hs, hr]
    rcases Bool.eq_false_or_eq_true (stmtContainsReturn s) with h1 | h1 <;>
      rcases Bool.eq_false_or_eq_true (containsReturn rest) with h2 | h2 <;>
      simp [h1, h2]

theorem emitStmt_char : ∀ s : Stmt,
    emitStmt s = (if stmtContainsReturn s then .error .returnNotAtEnd else .ok ())
  | .ifStmt t f => by
    have ht := emitStatements_char t
    have hf := emitStatements_char f
    simp only [emitStmt, stmtContainsReturn, ht, hf]
    rcases Bool.eq_false_or_eq_true (containsReturn t) with h1 | h1 <;>
      rcases Bool.eq_false_or_eq_true (containsReturn f) with h2 | h2 <;>
      simp [h1, h2]
  | .whileStmt body => by
    have hb := emitStatements_char body
    simp only [emitStmt, stmtContainsReturn, hb]
  | .forStmt body => by
    have hb := emitStatements_char body
    simp only [emitStmt, stmtContainsReturn, hb]
  | .returnStmt => rfl
  | .assignStmt => rfl
  | .augAssignStmt => rfl
  | .globalStmt => rfl
  | .exprStmt => rfl
  | .raiseStmt => rfl
  | .assertStmt => rfl
  | .passStmt => rfl

end

/-- C9: a return statement is accepted only as the last statement of the
function body — if a return appears anywhere in the statements in front of
the (optionally peeled) trailing return, including inside nested blocks
handled by the general statement emitter, compilation fails with the
return-placement error; and when the body ends without a return statement,
the single graph output of the function is a None constant. -/
theorem return_only_at_last_statement (stmts : List Stmt) :
    (containsReturn
        (if (match stmts.getLast? with
             | some .returnStmt => true
             | _ => false) then stmts.dropLast else stmts) = true →
      to_ir_body stmts = .error .returnNotAtEnd) ∧
    ((match stmts.getLast? with
      | some .returnStmt => true
      | _ => false) = false →
      containsReturn stmts = false →
      to_ir_body stmts = .ok [.noneConstant]) ∧
    (stmts.getLast? = some .returnStmt →
      containsReturn stmts.dropLast = false →
      to_ir_body stmts = .ok [.returnedValue]) := by
  refine ⟨?_, ?_, ?_⟩
  · intro hbody
    unfold to_ir_body
    cases hlast : (match stmts.getLast? with
        | some Stmt.returnStmt => true
        | _ => false) with
    | true =>
      rw [hlast] at hbody
      simp only [if_true] at hbody ⊢
      rw [emitStatements_char, hbody]
      rfl
    | false =>
      rw [hlast] at hbody
      simp only [Bool.false_eq_true, if_false] at hbody ⊢
      rw [emitStatements_char, hbody]
      rfl
  · intro hlast hnone
    unfold to_ir_body
    rw [hlast]
    simp only [Bool.false_eq_true, if_false]
    rw [emitStatements_char, hnone]
    rfl
  · intro hlast hnone
    unfold to_ir_body
    rw [hlast]
    simp only [if_true]
    rw [emitStatements_char, hnone]
    rfl

/-- Witness for C9: a body without a trailing return compiles with the None
constant as its single graph output; a return in the middle (or nested in
an if) fails; a trailing return compiles with the returned value as the
single output. -/
theorem return_only_at_last_statement_witness :
    to_ir_body [.assignStmt, .exprStmt] = .ok [.noneConstant] ∧
    to_ir_body [.ifStmt [.returnStmt] [], .assignStmt, .returnStmt] =
      .error .returnNotAtEnd ∧
    to_ir_body [.assignStmt, .returnStmt] = .ok [.returnedValue] := by
  refine ⟨?_, ?_, ?_⟩
  · exact (return_only_at_last_statement [.assignStmt, .exprStmt]).2.1 rfl rfl
  · exact (return_only_at_last_statement
      [.ifStmt [.returnStmt] [], .assignStmt, .returnStmt]).1 rfl
  · exact (return_only_at_last_statement [.assignStmt, .returnStmt]).2.2 rfl rfl

/- *********************** list literals (C10) *************************** -/

/-- Element-type rule of a list literal, read off the TK_LIST_LITERAL arm:
the element type of a List type hint when one is given, otherwise the type
of the first element, otherwise (empty literal, no hint) Tensor. -/
def listLiteralElemType (type_hint : Option Ty) (values : List Value) : Ty :=
  match type_hint with
  | some (.list elem) => elem
  | _ =>
    match values with
    | v :: _ => v.ty
    | [] => .dynamic

/-- Translation of the TK_LIST_LITERAL arm of to_ir::emitSimpleExpr:
determine the element type (a List hint, else the type of the first element,
else Tensor), fail on the first element whose type is not exactly that
element type, and otherwise build the list value of that element type. -/
def emitListLiteral (next_id : Nat) (values : List Value) (type_hint : Option Ty) :
    Except Err (Value × Nat) :=
  match values.find? (fun v => v.ty != listLiteralElemType type_hint values) with
  | some v => .error (.listElemTypeMismatch (listLiteralElemType type_hint values) v.ty)
  | none => .ok (⟨next_id, .list (listLiteralElemType type_hint values)⟩, next_id + 1)

/-- C10: a list literal compiles exactly when the type of every element
equals the determined element type (the element type of a List hint, else
the type of the first element, else Tensor); the result has that list
type, so every
successfully compiled list literal is homogeneous. -/
theorem list_literal_homogeneous (next_id : Nat) (values : List Value)
    (type_hint : Option Ty) :
    ((∃ out n2, emitListLiteral next_id values type_hint = .ok (out, n2)) ↔
      ∀ v ∈ values, v.ty = listLiteralElemType type_hint values) ∧
    (∀ out n2, emitListLiteral next_id values type_hint = .ok (out, n2) →
      out.ty = .list (listLiteralElemType type_hint values) ∧
      ∀ v ∈ values, ∀ w ∈ values, v.ty = w.ty) := by
  constructor
  · constructor
    · intro ⟨out, n2, hok⟩ v hv
      unfold emitListLiteral at hok
      cases hfind : values.find? (fun v => v.ty != listLiteralElemType type_hint values) with
      | some w => rw [hfind] at hok; exact absurd hok (by simp)
      | none =>
        have := List.find?_eq_none.1 hfind v hv
        simpa using this
    · intro hall
      unfold emitListLiteral
      have hfind : values.find? (fun v => v.ty != listLiteralElemType type_hint values)
          = none := by
        rw [List.find?_eq_none]
        intro v hv
        simp [hall v hv]
      rw [hfind]
      exact ⟨_, _, rfl⟩
  · intro out n2 hok
    have hall : ∀ v ∈ values, v.ty = listLiteralElemType type_hint values := by
      intro v hv
      unfold emitListLiteral at hok
      cases hfind : values.find? (fun v => v.ty != listLiteralElemType type_hint values) with
      | some w => rw [hfind] at hok; exact absurd hok (by simp)
      | none =>
        have := List.find?_eq_none.1 hfind v hv
        simpa using this
    constructor
    · unfold emitListLiteral at hok
      cases hfind : values.find? (fun v => v.ty != listLiteralElemType type_hint values) with
      | some w => rw [hfind] at hok; exact absurd hok (by simp)
      | none =>
        rw [hfind] at hok
        cases hok
        rfl
    · intro v hv w hw
      rw [hall v hv, hall w hw]

/-- Witness for C10: two ints form an int list; an int hint... a List[int]
hint with a float element fails; an empty literal without hint has type
Tensor list. -/
theorem list_literal_homogeneous_witness :
    (∃ out n2, emitListLiteral 4 [⟨1, .int⟩, ⟨2, .int⟩] none = .ok (out, n2)) ∧
    (∀ out n2, emitListLiteral 4 [⟨1, .int⟩, ⟨2, .int⟩] none = .ok (out, n2) →
      out.ty = .list .int) ∧
    emitListLiteral 4 [⟨1, .float⟩] (some (.list .int)) =
      .error (.listElemTypeMismatch .int .float) ∧
    (∀ out n2, emitListLiteral 4 [] none = .ok (out, n2) → out.ty = .list .dynamic) := by
  refine ⟨?_, ?_, ?_, ?_⟩
  · exact (list_literal_homogeneous 4 [⟨1, .int⟩, ⟨2, .int⟩] none).1.2 (by decide)
  · intro out n2 hok
    exact ((list_literal_homogeneous 4 [⟨1, .int⟩, ⟨2, .int⟩] none).2 out n2 hok).1
  · rfl
  · intro out n2 hok
    exact ((list_literal_homogeneous 4 [] none).2 out n2 hok).1

/-- Witness for C5: in a length-2 tuple, the constant index -3 adjusts to
-1 and fails out of range, while a slice from -5 to 7 clamps its adjusted
bounds into [0, 2] and succeeds. -/
theorem tuple_index_checks_slice_clamps_witness :
    getTupleIndexVal [Ty.int, Ty.float] (some (-3)) false =
      .error (.tupleIndexOutOfRange 2 (-3)) ∧
    emitTupleSlice [Ty.int, Ty.float] (some (-5)) (some (some 7)) = .ok (0, 2) ∧
    (0 ≤ (0 : Int) ∧ (0 : Int) ≤ 2 ∧ 0 ≤ (2 : Int) ∧ (2 : Int) ≤ 2) := by
  have h := tuple_index_checks_slice_clamps [Ty.int, Ty.float] (-3) (-5) 7
  have h1 : getTupleIndexVal [Ty.int, Ty.float] (some (-3)) false =
      .error (.tupleIndexOutOfRange 2 (-3)) := by
    rw [h.2.1]
    rfl
  have h2 : emitTupleSlice [Ty.int, Ty.float] (some (-5)) (some (some 7)) =
      .ok (0, 2) := by
    rw [h.2.2.1]
    rfl
  exact ⟨h1, h2, h.2.2.2.2 0 2 h2⟩
